import Mathlib

/-!
Verification of the Octroi request-admission pipeline.

This file gives a shallow embedding of the core components of the Octroi
gateway (package `ratelimit`: token-bucket limiter and tool rate limiter;
package `agent`: budget store checks; package `registry`: endpoint template
resolution; package `proxy`: the request pipeline and transaction recording;
package `metering`: the collector buffer), and proves properties of the
embedded definitions.

Modelling conventions:
- Go `float64` values (token counts, costs) are modelled as `ℚ`;
  Go `int` as `ℤ`; Go strings as `String` (template machinery works on
  `List Char` for ease of induction).
- The limiter's injectable clock `l.now()` becomes an explicit `now : ℚ`
  argument (seconds); `time.Duration` quantities are kept in seconds.
- Go maps guarded by the limiter mutex become association lists; each
  public operation is a pure state transformer.
- Database queries become lookups/folds over explicit row lists; a query
  that can return `pgx.ErrNoRows` is modelled with `Option`/`Except`.
-/

namespace Octroi

/-! ## Token-bucket limiter (`internal/ratelimit/limiter.go`) -/

/-- `bucket` tracks the token state for a single key. -/
structure Bucket where
  tokens : ℚ
  lastRefill : ℚ
  rate : ℤ
  deriving Repr, DecidableEq

/-- `Limiter` state: keyed buckets plus constructor parameters.
The mutex is not modelled; every operation is atomic state passing. -/
structure Limiter where
  buckets : List (String × Bucket)
  defaultRate : ℤ
  window : ℚ
  deriving Repr, DecidableEq

/-- `New`: a limiter with no buckets. -/
def Limiter.new (defaultRate : ℤ) (window : ℚ) : Limiter :=
  ⟨[], defaultRate, window⟩

/-- Association-list lookup for the bucket map. -/
def lookupBucket : List (String × Bucket) → String → Option Bucket
  | [], _ => none
  | (k', b) :: rest, k => if k' = k then some b else lookupBucket rest k

/-- Association-list store (replace-or-insert), the effect of `l.buckets[key] = b`. -/
def setBucket : List (String × Bucket) → String → Bucket → List (String × Bucket)
  | [], k, b => [(k, b)]
  | (k', b') :: rest, k, b =>
    if k' = k then (k, b) :: rest else (k', b') :: setBucket rest k b

/-- `effectiveRate` returns customRate if positive, otherwise the default rate. -/
def Limiter.effectiveRate (l : Limiter) (customRate : ℤ) : ℤ :=
  if customRate > 0 then customRate else l.defaultRate

/-- `getBucket`: the bucket for `key`, created lazily with `tokens = rate`;
the bucket's rate is overwritten with the rate passed on every call. -/
def Limiter.getBucket (l : Limiter) (now : ℚ) (key : String) (rate : ℤ) : Bucket :=
  match lookupBucket l.buckets key with
  | some b => { b with rate := rate }
  | none => { tokens := (rate : ℚ), lastRefill := now, rate := rate }

/-- `refill` adds tokens based on elapsed time since the last refill,
clamped to the bucket's rate. -/
def refill (window : ℚ) (now : ℚ) (b : Bucket) : Bucket :=
  let elapsed := now - b.lastRefill
  if elapsed ≤ 0 then b
  else
    let refillRate := (b.rate : ℚ) / window
    let t := b.tokens + elapsed * refillRate
    let t := if t > (b.rate : ℚ) then (b.rate : ℚ) else t
    { b with tokens := t, lastRefill := now }

/-- `Allow`: refill, then deny if fewer than one token remains, else consume one.
Returns the updated limiter and the decision. -/
def Limiter.allow (l : Limiter) (now : ℚ) (key : String) (customRate : ℤ) :
    Limiter × Bool :=
  let rate := l.effectiveRate customRate
  let b := refill l.window now (l.getBucket now key rate)
  if b.tokens < 1 then
    ({ l with buckets := setBucket l.buckets key b }, false)
  else
    ({ l with buckets := setBucket l.buckets key { b with tokens := b.tokens - 1 } }, true)

/-- `Status`: refill, then report (limit, whole tokens remaining clamped at 0,
resetAt). Go's `int(b.tokens)` truncates toward zero and is then clamped at 0,
which agrees with clamped `⌊·⌋` on every rational; `resetAt` is modelled
exactly in seconds. -/
def Limiter.status (l : Limiter) (now : ℚ) (key : String) (customRate : ℤ) :
    Limiter × (ℤ × ℤ × ℚ) :=
  let rate := l.effectiveRate customRate
  let b := refill l.window now (l.getBucket now key rate)
  let remaining := max 0 ⌊b.tokens⌋
  let deficit := (rate : ℚ) - b.tokens
  let resetAt := if deficit ≤ 0 then now else now + deficit / ((rate : ℚ) / l.window)
  ({ l with buckets := setBucket l.buckets key b }, (rate, remaining, resetAt))

/-- Run `n` consecutive `Allow` calls for `key` without any time advance,
collecting the decisions in order. -/
def allowRun (l : Limiter) (now : ℚ) (key : String) (customRate : ℤ) :
    ℕ → Limiter × List Bool
  | 0 => (l, [])
  | n + 1 =>
    let s := l.allow now key customRate
    let t := allowRun s.1 now key customRate n
    (t.1, s.2 :: t.2)

/-! ### Claim C8: a fresh full bucket admits exactly `rate` calls -/

/-- The single-bucket limiter state reached after `k` admitted calls on a
fresh bucket of rate `r`. -/
def midState (d : ℤ) (w : ℚ) (now : ℚ) (key : String) (r : ℤ) (k : ℕ) : Limiter :=
  ⟨[(key, ⟨(r : ℚ) - (k : ℕ), now, r⟩)], d, w⟩

lemma allowRun_succ (l : Limiter) (now : ℚ) (key : String) (c : ℤ) (n : ℕ) :
    allowRun l now key c (n + 1) =
      ((allowRun (l.allow now key c).1 now key c n).1,
        (l.allow now key c).2 :: (allowRun (l.allow now key c).1 now key c n).2) :=
  rfl

lemma allow_midState (d : ℤ) (w : ℚ) (now : ℚ) (key : String) (r : ℤ) (k : ℕ)
    (hr : 0 < r) (hk : (k : ℤ) < r) :
    (midState d w now key r k).allow now key r =
      (midState d w now key r (k + 1), true) := by
  have htok : ¬ ((r : ℚ) - (k : ℕ) < 1) := by
    push_neg
    have : (k : ℚ) + 1 ≤ (r : ℚ) := by
      exact_mod_cast Int.add_one_le_iff.mpr hk
    linarith
  simp only [Limiter.allow, Limiter.effectiveRate, midState, gt_iff_lt, hr, if_true,
    Limiter.getBucket, lookupBucket, if_pos rfl, refill, sub_self, le_refl,
    if_true, htok, if_false, setBucket]
  norm_num
  ring

lemma allow_midState_full (d : ℤ) (w : ℚ) (now : ℚ) (key : String) (r : ℤ)
    (hr : 0 < r) :
    ((midState d w now key r r.toNat).allow now key r).2 = false := by
  have hcast : ((r.toNat : ℕ) : ℚ) = (r : ℚ) := by
    exact_mod_cast congrArg (fun z : ℤ => (z : ℚ)) (Int.toNat_of_nonneg hr.le)
  have htok : (r : ℚ) - (r.toNat : ℕ) < 1 := by
    rw [hcast]; norm_num
  simp only [Limiter.allow, Limiter.effectiveRate, midState, gt_iff_lt, hr, if_true,
    Limiter.getBucket, lookupBucket, if_pos rfl, refill, sub_self, le_refl,
    htok, if_true]

lemma allowRun_midState (d : ℤ) (w : ℚ) (now : ℚ) (key : String) (r : ℤ)
    (hr : 0 < r) :
    ∀ m k : ℕ, k + m = r.toNat →
      (allowRun (midState d w now key r k) now key r (m + 1)).2 =
        List.replicate m true ++ [false] := by
  intro m
  induction m with
  | zero =>
    intro k hk
    simp only [Nat.add_zero] at hk
    subst hk
    rw [allowRun_succ]
    simp [allowRun, allow_midState_full d w now key r hr]
  | succ m ih =>
    intro k hk
    have hklt : (k : ℤ) < r := by
      have h1 : k < r.toNat := by omega
      have := Int.toNat_of_nonneg hr.le
      omega
    have step := allow_midState d w now key r k hr hklt
    rw [allowRun_succ, step]
    rw [show ((midState d w now key r (k + 1), true) : Limiter × Bool).1 =
      midState d w now key r (k + 1) from rfl]
    rw [ih (k + 1) (by omega)]
    simp [List.replicate_succ]

/-- Starting from an absent bucket, the first `Allow` creates the bucket full
and consumes one token, reaching `midState … 1`. -/
lemma allow_fresh_eq_midState (d : ℤ) (w : ℚ) (now : ℚ) (key : String) (r : ℤ)
    (hr : 0 < r) :
    (Limiter.new d w).allow now key r = (midState d w now key r 1, true) := by
  have htok : ¬ ((r : ℚ) < 1) := by
    push_neg
    exact_mod_cast hr
  simp only [Limiter.new, Limiter.allow, Limiter.effectiveRate, gt_iff_lt, hr, if_true,
    Limiter.getBucket, lookupBucket, refill, sub_self, le_refl, htok, if_false,
    setBucket, midState]
  norm_num

/-- Claim C8: on a fresh bucket with positive rate `r` and no time advance,
the first `r` consecutive `Allow` calls return true and the `(r+1)`-th
returns false. -/
theorem fresh_bucket_allows_exactly_rate (d : ℤ) (w : ℚ) (now : ℚ) (key : String)
    (r : ℤ) (hr : 0 < r) :
    (allowRun (Limiter.new d w) now key r (r.toNat + 1)).2 =
      List.replicate r.toNat true ++ [false] := by
  have hpos : 1 ≤ r.toNat := by omega
  obtain ⟨m, hm⟩ : ∃ m, r.toNat = m + 1 := ⟨r.toNat - 1, by omega⟩
  rw [hm]
  rw [show m + 1 + 1 = (m + 1) + 1 from rfl, allowRun_succ,
    allow_fresh_eq_midState d w now key r hr]
  rw [show ((midState d w now key r 1, true) : Limiter × Bool).1 =
    midState d w now key r 1 from rfl]
  rw [allowRun_midState d w now key r hr m 1 (by omega)]
  simp [List.replicate_succ]

/-- Witness for C8 at rate 3: the decision sequence is `[t, t, t, f]`. -/
theorem fresh_bucket_allows_exactly_rate_witness :
    (allowRun (Limiter.new 10 60) 0 "k" 3 4).2 = [true, true, true, false] :=
  fresh_bucket_allows_exactly_rate 10 60 0 "k" 3 (by decide)

/-! ### Claim C2: token bounds under Allow / Status / time advance -/

/-- One observable interaction with the limiter: an `Allow` call, a `Status`
call, or a clock advance. -/
inductive LimStep where
  | allow (key : String) (customRate : ℤ)
  | status (key : String) (customRate : ℤ)
  | advance (dt : ℚ)
  deriving Repr, DecidableEq

/-- Limiter together with the injectable clock's current value. -/
structure LimState where
  limiter : Limiter
  now : ℚ
  deriving Repr, DecidableEq

def LimState.step (s : LimState) : LimStep → LimState
  | .allow k c => { s with limiter := (s.limiter.allow s.now k c).1 }
  | .status k c => { s with limiter := (s.limiter.status s.now k c).1 }
  | .advance dt => { s with now := s.now + dt }

def LimState.run (s : LimState) : List LimStep → LimState
  | [] => s
  | st :: rest => (s.step st).run rest

/-- Counterexample to C2 as stated: lowering the rate passed for a key leaves
the token count above the bucket's new effective rate.  After `Allow("k", 10)`
then `Allow("k", 5)` with no time advance, the bucket holds 8 tokens while its
current effective rate is 5. -/
theorem tokens_bound_rate_change_cex :
    lookupBucket ((LimState.run ⟨Limiter.new 10 60, 0⟩
        [.allow "k" 10, .allow "k" 5]).limiter.buckets) "k" =
      some ⟨8, 0, 5⟩ ∧ ¬ ((8 : ℚ) ≤ ((5 : ℤ) : ℚ)) := by
  constructor
  · norm_num [LimState.run, LimState.step, Limiter.allow, Limiter.effectiveRate,
      Limiter.getBucket, lookupBucket, refill, setBucket, Limiter.new]
  · norm_num

/-- The bounds invariant of C2, for a per-key rate assignment `ρ`. -/
def BucketsInv (ρ : String → ℤ) (bs : List (String × Bucket)) : Prop :=
  ∀ p ∈ bs, 0 ≤ p.2.tokens ∧ p.2.tokens ≤ (ρ p.1 : ℚ) ∧ p.2.rate = ρ p.1

/-- A step is rate-disciplined when every `Allow`/`Status` call's effective
rate (given default rate `d`) agrees with the fixed per-key rate `ρ`. -/
def LimStep.disciplined (d : ℤ) (ρ : String → ℤ) : LimStep → Prop
  | .allow k c => (if c > 0 then c else d) = ρ k
  | .status k c => (if c > 0 then c else d) = ρ k
  | .advance _ => True

lemma lookupBucket_mem : ∀ {bs : List (String × Bucket)} {k : String} {b : Bucket},
    lookupBucket bs k = some b → (k, b) ∈ bs := by
  intro bs
  induction bs with
  | nil => intro k b h; simp [lookupBucket] at h
  | cons p rest ih =>
    intro k b h
    obtain ⟨k', b'⟩ := p
    simp only [lookupBucket] at h
    by_cases hk : k' = k
    · subst hk
      rw [if_pos rfl] at h
      injection h with h
      subst h
      exact List.mem_cons_self _ _
    · rw [if_neg hk] at h
      exact List.mem_cons_of_mem _ (ih h)

lemma mem_setBucket : ∀ {bs : List (String × Bucket)} {k : String} {b : Bucket}
    {p : String × Bucket}, p ∈ setBucket bs k b → p = (k, b) ∨ p ∈ bs := by
  intro bs
  induction bs with
  | nil => intro k b p hp; simp [setBucket] at hp; simp [hp]
  | cons q rest ih =>
    intro k b p hp
    simp only [setBucket] at hp
    by_cases hk : q.1 = k
    · rw [if_pos hk] at hp
      rcases List.mem_cons.mp hp with h | h
      · exact Or.inl h
      · exact Or.inr (List.mem_cons_of_mem _ h)
    · rw [if_neg hk] at hp
      rcases List.mem_cons.mp hp with h | h
      · exact Or.inr (h ▸ List.mem_cons_self _ _)
      · rcases ih h with h' | h'
        · exact Or.inl h'
        · exact Or.inr (List.mem_cons_of_mem _ h')

lemma lookupBucket_setBucket_self : ∀ (bs : List (String × Bucket)) (k : String)
    (b : Bucket), lookupBucket (setBucket bs k b) k = some b := by
  intro bs
  induction bs with
  | nil => intro k b; simp [setBucket, lookupBucket]
  | cons q rest ih =>
    intro k b
    simp only [setBucket]
    by_cases hk : q.1 = k
    · rw [if_pos hk]; simp [lookupBucket]
    · rw [if_neg hk]; simp only [lookupBucket, if_neg hk]; exact ih k b

lemma lookupBucket_setBucket_ne : ∀ (bs : List (String × Bucket)) (k k' : String)
    (b : Bucket), k ≠ k' → lookupBucket (setBucket bs k b) k' = lookupBucket bs k' := by
  intro bs
  induction bs with
  | nil => intro k k' b hne; simp [setBucket, lookupBucket, hne]
  | cons q rest ih =>
    intro k k' b hne
    simp only [setBucket]
    by_cases hk : q.1 = k
    · rw [if_pos hk]
      simp only [lookupBucket, if_neg hne, if_neg (hk ▸ hne : ¬ q.1 = k')]
    · rw [if_neg hk]
      simp only [lookupBucket]
      by_cases hq : q.1 = k'
      · rw [if_pos hq, if_pos hq]
      · rw [if_neg hq, if_neg hq]; exact ih k k' b hne

/-- `refill` keeps a positive-rate bucket's tokens within `[0, rate]` and
does not change the rate. -/
lemma refill_bounds (w now : ℚ) (hw : 0 < w) (b : Bucket) (hrate : 0 < b.rate)
    (h0 : 0 ≤ b.tokens) (h1 : b.tokens ≤ (b.rate : ℚ)) :
    0 ≤ (refill w now b).tokens ∧ (refill w now b).tokens ≤ (b.rate : ℚ) ∧
      (refill w now b).rate = b.rate := by
  have hrq : (0 : ℚ) < (b.rate : ℚ) := by exact_mod_cast hrate
  simp only [refill]
  split_ifs with he hclamp
  · exact ⟨h0, h1, rfl⟩
  · exact ⟨hrq.le, le_refl _, rfl⟩
  · push_neg at he hclamp
    have h1' : 0 ≤ now - b.lastRefill := le_of_lt he
    have h2' : 0 ≤ (b.rate : ℚ) / w := le_of_lt (div_pos hrq hw)
    have hadd := mul_nonneg h1' h2'
    exact ⟨by linarith, hclamp, rfl⟩

/-- `getBucket` at rate `ρ k` yields a bucket within bounds, assuming the
invariant for existing buckets. -/
lemma getBucket_bounds (l : Limiter) (now : ℚ) (k : String) (ρ : String → ℤ)
    (hρ : ∀ key, 0 < ρ key) (hinv : BucketsInv ρ l.buckets) :
    0 ≤ (l.getBucket now k (ρ k)).tokens ∧
      (l.getBucket now k (ρ k)).tokens ≤ (ρ k : ℚ) ∧
      (l.getBucket now k (ρ k)).rate = ρ k := by
  cases hl : lookupBucket l.buckets k with
  | some bOld =>
    have hb := hinv (k, bOld) (lookupBucket_mem hl)
    have hgb : l.getBucket now k (ρ k) = { bOld with rate := ρ k } := by
      unfold Limiter.getBucket; rw [hl]
    rw [hgb]
    exact ⟨hb.1, hb.2.1, rfl⟩
  | none =>
    have hgb : l.getBucket now k (ρ k) = ⟨(ρ k : ℚ), now, ρ k⟩ := by
      unfold Limiter.getBucket; rw [hl]
    rw [hgb]
    refine ⟨?_, le_refl _, rfl⟩
    show (0 : ℚ) ≤ ((ρ k : ℤ) : ℚ)
    exact_mod_cast (hρ k).le

lemma allow_fst_buckets (l : Limiter) (now : ℚ) (k : String) (c : ℤ) :
    ∃ b' : Bucket,
      ((l.allow now k c).1).buckets = setBucket l.buckets k b' ∧
      (b' = refill l.window now (l.getBucket now k (l.effectiveRate c)) ∨
        (b' = { refill l.window now (l.getBucket now k (l.effectiveRate c)) with
                tokens := (refill l.window now
                  (l.getBucket now k (l.effectiveRate c))).tokens - 1 } ∧
          ¬ (refill l.window now
              (l.getBucket now k (l.effectiveRate c))).tokens < 1)) := by
  unfold Limiter.allow
  by_cases h : (refill l.window now (l.getBucket now k (l.effectiveRate c))).tokens < 1
  · exact ⟨_, by rw [if_pos h], Or.inl rfl⟩
  · exact ⟨_, by rw [if_neg h], Or.inr ⟨rfl, h⟩⟩

lemma refilled_bounds (l : Limiter) (now : ℚ) (k : String)
    (ρ : String → ℤ) (hw : 0 < l.window) (hρ : ∀ key, 0 < ρ key)
    (hinv : BucketsInv ρ l.buckets) :
    0 ≤ (refill l.window now (l.getBucket now k (ρ k))).tokens ∧
      (refill l.window now (l.getBucket now k (ρ k))).tokens ≤ (ρ k : ℚ) ∧
      (refill l.window now (l.getBucket now k (ρ k))).rate = ρ k := by
  have hg := getBucket_bounds l now k ρ hρ hinv
  have hrate : 0 < (l.getBucket now k (ρ k)).rate := by rw [hg.2.2]; exact hρ k
  have h1 : (l.getBucket now k (ρ k)).tokens ≤ (((l.getBucket now k (ρ k)).rate : ℤ) : ℚ) := by
    rw [hg.2.2]; exact hg.2.1
  have hr := refill_bounds l.window now hw (l.getBucket now k (ρ k)) hrate hg.1 h1
  rw [hg.2.2] at hr
  exact hr

lemma allow_preserves_inv (l : Limiter) (now : ℚ) (k : String) (c : ℤ)
    (ρ : String → ℤ) (hw : 0 < l.window) (hρ : ∀ key, 0 < ρ key)
    (hd : l.effectiveRate c = ρ k) (hinv : BucketsInv ρ l.buckets) :
    BucketsInv ρ ((l.allow now k c).1).buckets := by
  obtain ⟨b', hbs, hb'⟩ := allow_fst_buckets l now k c
  have hr := refilled_bounds l now k ρ hw hρ hinv
  have hb'bounds : 0 ≤ b'.tokens ∧ b'.tokens ≤ (ρ k : ℚ) ∧ b'.rate = ρ k := by
    rw [hd] at hb'
    rcases hb' with rfl | ⟨rfl, hge⟩
    · exact hr
    · push_neg at hge
      exact ⟨by simp only []; linarith, by simp only []; linarith [hr.2.1], hr.2.2⟩
  intro p hp
  rw [hbs] at hp
  rcases mem_setBucket hp with rfl | hmem
  · exact hb'bounds
  · exact hinv p hmem

lemma status_fst_buckets (l : Limiter) (now : ℚ) (k : String) (c : ℤ) :
    ((l.status now k c).1).buckets =
      setBucket l.buckets k
        (refill l.window now (l.getBucket now k (l.effectiveRate c))) := rfl

lemma status_preserves_inv (l : Limiter) (now : ℚ) (k : String) (c : ℤ)
    (ρ : String → ℤ) (hw : 0 < l.window) (hρ : ∀ key, 0 < ρ key)
    (hd : l.effectiveRate c = ρ k) (hinv : BucketsInv ρ l.buckets) :
    BucketsInv ρ ((l.status now k c).1).buckets := by
  have hr := refilled_bounds l now k ρ hw hρ hinv
  intro p hp
  rw [status_fst_buckets, hd] at hp
  rcases mem_setBucket hp with rfl | hmem
  · exact hr
  · exact hinv p hmem

lemma allow_fst_params (l : Limiter) (now : ℚ) (k : String) (c : ℤ) :
    ((l.allow now k c).1).defaultRate = l.defaultRate ∧
      ((l.allow now k c).1).window = l.window := by
  unfold Limiter.allow
  by_cases h : (refill l.window now (l.getBucket now k (l.effectiveRate c))).tokens < 1
  · rw [if_pos h]; exact ⟨rfl, rfl⟩
  · rw [if_neg h]; exact ⟨rfl, rfl⟩

lemma effectiveRate_eq (l : Limiter) (c : ℤ) :
    l.effectiveRate c = if c > 0 then c else l.defaultRate := rfl

lemma run_preserves_inv (ρ : String → ℤ) (hρ : ∀ key, 0 < ρ key) :
    ∀ (steps : List LimStep) (s : LimState), 0 < s.limiter.window →
      (∀ st ∈ steps, st.disciplined s.limiter.defaultRate ρ) →
      BucketsInv ρ s.limiter.buckets →
      BucketsInv ρ (s.run steps).limiter.buckets := by
  intro steps
  induction steps with
  | nil => intro s _ _ hinv; exact hinv
  | cons st rest ih =>
    intro s hw hsteps hinv
    show BucketsInv ρ ((s.step st).run rest).limiter.buckets
    have hst := hsteps st (List.mem_cons_self _ _)
    cases st with
    | allow k c =>
      have hd : s.limiter.effectiveRate c = ρ k := by
        rw [effectiveRate_eq]; exact hst
      have hparams := allow_fst_params s.limiter s.now k c
      exact ih _ (by rw [show (s.step (.allow k c)).limiter =
          (s.limiter.allow s.now k c).1 from rfl, hparams.2]; exact hw)
        (fun st' hst' => by
          rw [show (s.step (.allow k c)).limiter =
            (s.limiter.allow s.now k c).1 from rfl, hparams.1]
          exact hsteps st' (List.mem_cons_of_mem _ hst'))
        (allow_preserves_inv s.limiter s.now k c ρ hw hρ hd hinv)
    | status k c =>
      have hd : s.limiter.effectiveRate c = ρ k := by
        rw [effectiveRate_eq]; exact hst
      exact ih _ hw
        (fun st' hst' => hsteps st' (List.mem_cons_of_mem _ hst'))
        (status_preserves_inv s.limiter s.now k c ρ hw hρ hd hinv)
    | advance dt =>
      exact ih _ hw
        (fun st' hst' => hsteps st' (List.mem_cons_of_mem _ hst'))
        hinv

/-- Claim C2 (amended): with a fixed positive rate `ρ k` per key, after any
sequence of Allow/Status/time-advance steps from a fresh limiter, every
bucket's token count lies in `[0, ρ k]`; and every `Allow` call that returns
true leaves the bucket with exactly one token fewer than its refilled level. -/
theorem tokens_bounds_fixed_rate (d : ℤ) (w : ℚ) (now0 : ℚ) (ρ : String → ℤ)
    (steps : List LimStep) (hw : 0 < w) (hρ : ∀ k, 0 < ρ k)
    (hsteps : ∀ st ∈ steps, st.disciplined d ρ) :
    BucketsInv ρ ((LimState.run ⟨Limiter.new d w, now0⟩ steps).limiter.buckets) ∧
    (∀ (l : Limiter) (now : ℚ) (k : String) (c : ℤ),
      (l.allow now k c).2 = true →
      lookupBucket ((l.allow now k c).1).buckets k =
        some { refill l.window now (l.getBucket now k (l.effectiveRate c)) with
               tokens := (refill l.window now
                 (l.getBucket now k (l.effectiveRate c))).tokens - 1 }) := by
  constructor
  · exact run_preserves_inv ρ hρ steps ⟨Limiter.new d w, now0⟩ hw hsteps
      (by intro p hp; simp [Limiter.new] at hp)
  · intro l now k c htrue
    unfold Limiter.allow at htrue ⊢
    by_cases h : (refill l.window now (l.getBucket now k (l.effectiveRate c))).tokens < 1
    · rw [if_pos h] at htrue; simp at htrue
    · rw [if_neg h]
      exact lookupBucket_setBucket_self _ _ _

/-- Witness for the amended C2: rate 5, window 60, the sequence
`Allow, advance 30, Allow` ends with the bucket at 4 tokens ∈ [0, 5]. -/
theorem tokens_bounds_fixed_rate_witness :
    0 ≤ (Bucket.mk 4 30 5).tokens ∧ (Bucket.mk 4 30 5).tokens ≤ (((5 : ℤ)) : ℚ) := by
  have h := (tokens_bounds_fixed_rate 5 60 0 (fun _ => 5)
    [.allow "k" 5, .advance 30, .allow "k" 5] (by norm_num) (by intro k; norm_num)
    (by
      intro st hst
      simp only [List.mem_cons, List.not_mem_nil, or_false] at hst
      rcases hst with rfl | rfl | rfl <;> simp [LimStep.disciplined])).1
  have hrun : ((LimState.run ⟨Limiter.new 5 60, 0⟩
      [.allow "k" 5, .advance 30, .allow "k" 5]).limiter.buckets) =
      [("k", Bucket.mk 4 30 5)] := by
    norm_num [LimState.run, LimState.step, Limiter.allow, Limiter.effectiveRate,
      Limiter.getBucket, lookupBucket, refill, setBucket, Limiter.new]
  have hb := h ("k", Bucket.mk 4 30 5) (by rw [hrun]; exact List.mem_cons_self _ _)
  exact ⟨hb.1, hb.2.1⟩

/-! ## Tool rate limiter (`internal/ratelimit/tool_limiter.go`) -/

/-- One scope to check: a bucket key and its positive rate. -/
structure ScopeCheck where
  key : String
  rate : ℤ
  deriving Repr, DecidableEq

/-- Bucket key for the tool-global scope: `tool:<toolID>`. -/
def toolKeyGlobal (toolID : String) : String := "tool:" ++ toolID

/-- Bucket key for the team scope: `tool:<toolID>:team:<team>`. -/
def toolKeyTeam (toolID team : String) : String :=
  "tool:" ++ toolID ++ ":team:" ++ team

/-- Bucket key for the agent scope: `tool:<toolID>:agent:<agentID>`. -/
def toolKeyAgent (toolID agentID : String) : String :=
  "tool:" ++ toolID ++ ":agent:" ++ agentID

/-- The scope checks assembled by `CheckToolRateLimit`: each scope with a
positive rate, the team scope only when the team string is non-empty. -/
def toolChecks (toolID team agentID : String)
    (globalRate teamRate agentRate : ℤ) : List ScopeCheck :=
  (if globalRate > 0 then [⟨toolKeyGlobal toolID, globalRate⟩] else []) ++
    ((if teamRate > 0 ∧ team ≠ "" then [⟨toolKeyTeam toolID team, teamRate⟩] else []) ++
      (if agentRate > 0 then [⟨toolKeyAgent toolID agentID, agentRate⟩] else []))

/-- The loop body of `CheckToolRateLimit`: for each check in order, call
`Allow` then `Status`, threading the limiter; the trace records each check's
Allow decision and Status triple (limit, remaining, resetAt). -/
def runChecks (l : Limiter) (now : ℚ) :
    List ScopeCheck → Limiter × List (Bool × ℤ × ℤ × ℚ)
  | [] => (l, [])
  | c :: rest =>
    let a := l.allow now c.key c.rate
    let s := a.1.status now c.key c.rate
    let t := runChecks s.1 now rest
    (t.1, (a.2, s.2) :: t.2)

/-- The Go loop's accumulator update for the tightest (smallest-limit)
bucket, folded over the trace: start `(0, 0, 0)` and take an entry's triple
whenever the running limit is 0 or the entry's limit is strictly smaller. -/
def selectTightest (tr : List (Bool × ℤ × ℤ × ℚ)) : ℤ × ℤ × ℚ :=
  tr.foldl (fun acc e => if acc.1 = 0 ∨ e.2.1 < acc.1 then e.2 else acc) (0, 0, 0)

/-- Result of `CheckToolRateLimit` (the error path of `store.Resolve` is
environmental; the resolved rates are taken as inputs). -/
structure ToolRLResult where
  allowed : Bool
  limit : ℤ
  remaining : ℤ
  resetAt : ℚ
  deriving Repr, DecidableEq

/-- `CheckToolRateLimit` over resolved rates: early-allow when all three
rates are zero or no checks apply; otherwise every check's bucket must
allow, and the headers report the tightest bucket. -/
def checkToolRateLimit (l : Limiter) (now : ℚ) (toolID team agentID : String)
    (globalRate teamRate agentRate : ℤ) : Limiter × ToolRLResult :=
  if globalRate = 0 ∧ teamRate = 0 ∧ agentRate = 0 then
    (l, ⟨true, 0, 0, 0⟩)
  else
    let cs := toolChecks toolID team agentID globalRate teamRate agentRate
    if cs = [] then (l, ⟨true, 0, 0, 0⟩)
    else
      let r := runChecks l now cs
      let sel := selectTightest r.2
      (r.1, ⟨r.2.all (fun e => e.1), sel.1, sel.2.1, sel.2.2⟩)

lemma toolChecks_rate_pos (toolID team agentID : String) (g t a : ℤ) :
    ∀ c ∈ toolChecks toolID team agentID g t a, 0 < c.rate := by
  intro c hc
  simp only [toolChecks, List.mem_append] at hc
  rcases hc with h | h | h
  · by_cases hg : g > 0
    · rw [if_pos hg] at h; simp at h; rw [h]; exact hg
    · rw [if_neg hg] at h; simp at h
  · by_cases ht : t > 0 ∧ team ≠ ""
    · rw [if_pos ht] at h; simp at h; rw [h]; exact ht.1
    · rw [if_neg ht] at h; simp at h
  · by_cases ha : a > 0
    · rw [if_pos ha] at h; simp at h; rw [h]; exact ha
    · rw [if_neg ha] at h; simp at h

lemma status_snd (l : Limiter) (now : ℚ) (k : String) (c : ℤ) :
    (l.status now k c).2.1 = l.effectiveRate c := rfl

lemma runChecks_nil (l : Limiter) (now : ℚ) : runChecks l now [] = (l, []) := rfl

lemma runChecks_cons (l : Limiter) (now : ℚ) (c : ScopeCheck)
    (rest : List ScopeCheck) :
    runChecks l now (c :: rest) =
      ((runChecks (((l.allow now c.key c.rate).1.status now c.key c.rate).1) now rest).1,
        ((l.allow now c.key c.rate).2,
          ((l.allow now c.key c.rate).1.status now c.key c.rate).2) ::
          (runChecks (((l.allow now c.key c.rate).1.status now c.key c.rate).1)
            now rest).2) := rfl

lemma runChecks_limits (now : ℚ) :
    ∀ (cs : List ScopeCheck) (l : Limiter), (∀ c ∈ cs, 0 < c.rate) →
      (runChecks l now cs).2.map (fun e => e.2.1) = cs.map ScopeCheck.rate := by
  intro cs
  induction cs with
  | nil => intro l _; rfl
  | cons c rest ih =>
    intro l h
    have hc := h c (List.mem_cons_self _ _)
    rw [runChecks_cons]
    simp only [List.map_cons]
    congr 1
    · show (((l.allow now c.key c.rate).1.status now c.key c.rate).2).1 = c.rate
      rw [status_snd]
      exact if_pos hc
    · exact ih _ (fun c' hc' => h c' (List.mem_cons_of_mem _ hc'))

/-- The fold underlying `selectTightest`, from an arbitrary positive-limit
accumulator: the result is the accumulator or one of the entries, and its
limit is a lower bound. -/
lemma selectTightest_go (tr : List (Bool × ℤ × ℤ × ℚ)) :
    ∀ acc : ℤ × ℤ × ℚ, 0 < acc.1 → (∀ e ∈ tr, 0 < e.2.1) →
      ((tr.foldl (fun acc e => if acc.1 = 0 ∨ e.2.1 < acc.1 then e.2 else acc) acc = acc ∨
          ∃ e ∈ tr, e.2 = tr.foldl
            (fun acc e => if acc.1 = 0 ∨ e.2.1 < acc.1 then e.2 else acc) acc) ∧
        (tr.foldl (fun acc e => if acc.1 = 0 ∨ e.2.1 < acc.1 then e.2 else acc) acc).1 ≤ acc.1 ∧
        (∀ e ∈ tr, (tr.foldl
          (fun acc e => if acc.1 = 0 ∨ e.2.1 < acc.1 then e.2 else acc) acc).1 ≤ e.2.1)) := by
  induction tr with
  | nil =>
    intro acc hacc _
    exact ⟨Or.inl rfl, le_refl _, by intro e he; simp at he⟩
  | cons e rest ih =>
    intro acc hacc h
    have he := h e (List.mem_cons_self _ _)
    have hrest : ∀ e' ∈ rest, 0 < e'.2.1 :=
      fun e' he' => h e' (List.mem_cons_of_mem _ he')
    simp only [List.foldl_cons]
    by_cases hcond : acc.1 = 0 ∨ e.2.1 < acc.1
    · rw [if_pos hcond]
      have hlt : e.2.1 < acc.1 := by
        rcases hcond with h0 | h0
        · omega
        · exact h0
      obtain ⟨hin, hle, hall⟩ := ih e.2 he hrest
      refine ⟨?_, by linarith, ?_⟩
      · rcases hin with h' | ⟨e', he', h'⟩
        · exact Or.inr ⟨e, List.mem_cons_self _ _, h'.symm ▸ rfl⟩
        · exact Or.inr ⟨e', List.mem_cons_of_mem _ he', h'⟩
      · intro e' he'
        rcases List.mem_cons.mp he' with rfl | hmem
        · exact hle
        · exact hall e' hmem
    · rw [if_neg hcond]
      push_neg at hcond
      obtain ⟨hin, hle, hall⟩ := ih acc hacc hrest
      refine ⟨?_, hle, ?_⟩
      · rcases hin with h' | ⟨e', he', h'⟩
        · exact Or.inl h'
        · exact Or.inr ⟨e', List.mem_cons_of_mem _ he', h'⟩
      · intro e' he'
        rcases List.mem_cons.mp he' with rfl | hmem
        · exact le_trans hle hcond.2
        · exact hall e' hmem

/-- `selectTightest` on a non-empty trace of positive limits returns the
triple of some entry, and its limit is the minimum entry limit. -/
lemma selectTightest_spec (e1 : Bool × ℤ × ℤ × ℚ) (rest : List (Bool × ℤ × ℤ × ℚ))
    (h : ∀ e ∈ e1 :: rest, 0 < e.2.1) :
    (∃ e ∈ e1 :: rest, e.2 = selectTightest (e1 :: rest)) ∧
      ∀ e ∈ e1 :: rest, (selectTightest (e1 :: rest)).1 ≤ e.2.1 := by
  have he1 := h e1 (List.mem_cons_self _ _)
  have hrest : ∀ e ∈ rest, 0 < e.2.1 := fun e he => h e (List.mem_cons_of_mem _ he)
  have hfold : selectTightest (e1 :: rest) =
      rest.foldl (fun acc e => if acc.1 = 0 ∨ e.2.1 < acc.1 then e.2 else acc) e1.2 := by
    unfold selectTightest
    simp
  obtain ⟨hin, hle, hall⟩ := selectTightest_go rest e1.2 he1 hrest
  rw [hfold]
  constructor
  · rcases hin with h' | ⟨e', he', h'⟩
    · exact ⟨e1, List.mem_cons_self _ _, h'.symm⟩
    · exact ⟨e', List.mem_cons_of_mem _ he', h'⟩
  · intro e' he'
    rcases List.mem_cons.mp he' with rfl | hmem
    · exact hle
    · exact hall e' hmem

/-! ### Claim C4: AND semantics and tightest-bucket reporting -/

/-- Claim C4: the overall result allows iff every checked (non-zero) scope's
`Allow` returned true; the per-check `Status` limits are exactly the non-zero
scope rates (team counted only when non-empty); with no checks the call
allows with limit 0; with checks, the reported (limit, remaining, resetAt)
triple is that of a checked bucket whose limit is minimal. -/
theorem checkToolRateLimit_spec (l : Limiter) (now : ℚ)
    (toolID team agentID : String) (g t a : ℤ) :
    ((checkToolRateLimit l now toolID team agentID g t a).2.allowed = true ↔
      ∀ e ∈ (runChecks l now (toolChecks toolID team agentID g t a)).2, e.1 = true) ∧
    ((runChecks l now (toolChecks toolID team agentID g t a)).2.map (fun e => e.2.1) =
      (toolChecks toolID team agentID g t a).map ScopeCheck.rate) ∧
    (toolChecks toolID team agentID g t a = [] →
      (checkToolRateLimit l now toolID team agentID g t a).2 = ⟨true, 0, 0, 0⟩) ∧
    (toolChecks toolID team agentID g t a ≠ [] →
      (∃ e ∈ (runChecks l now (toolChecks toolID team agentID g t a)).2,
        e.2.1 = (checkToolRateLimit l now toolID team agentID g t a).2.limit ∧
        e.2.2.1 = (checkToolRateLimit l now toolID team agentID g t a).2.remaining ∧
        e.2.2.2 = (checkToolRateLimit l now toolID team agentID g t a).2.resetAt) ∧
      (∀ e ∈ (runChecks l now (toolChecks toolID team agentID g t a)).2,
        (checkToolRateLimit l now toolID team agentID g t a).2.limit ≤ e.2.1)) := by
  have hmap := runChecks_limits now (toolChecks toolID team agentID g t a) l
    (toolChecks_rate_pos toolID team agentID g t a)
  by_cases hz : g = 0 ∧ t = 0 ∧ a = 0
  · have hcs : toolChecks toolID team agentID g t a = [] := by
      simp [toolChecks, hz.1, hz.2.1, hz.2.2]
    have hres : checkToolRateLimit l now toolID team agentID g t a = (l, ⟨true, 0, 0, 0⟩) := by
      unfold checkToolRateLimit
      rw [if_pos hz]
    rw [hcs] at hmap ⊢
    refine ⟨?_, hmap, fun _ => by rw [hres], fun hne => absurd rfl hne⟩
    rw [hres]
    simp only [runChecks, true_iff]
    intro e he
    simp at he
  · by_cases hcs : toolChecks toolID team agentID g t a = []
    · have hres : checkToolRateLimit l now toolID team agentID g t a = (l, ⟨true, 0, 0, 0⟩) := by
        unfold checkToolRateLimit
        rw [if_neg hz, if_pos hcs]
      rw [hcs] at hmap ⊢
      refine ⟨?_, hmap, fun _ => by rw [hres], fun hne => absurd rfl hne⟩
      rw [hres]
      simp only [runChecks, true_iff]
      intro e he
      simp at he
    · have hres : checkToolRateLimit l now toolID team agentID g t a =
          ((runChecks l now (toolChecks toolID team agentID g t a)).1,
            ⟨(runChecks l now (toolChecks toolID team agentID g t a)).2.all (fun e => e.1),
              (selectTightest (runChecks l now (toolChecks toolID team agentID g t a)).2).1,
              (selectTightest (runChecks l now (toolChecks toolID team agentID g t a)).2).2.1,
              (selectTightest (runChecks l now (toolChecks toolID team agentID g t a)).2).2.2⟩) := by
        unfold checkToolRateLimit
        rw [if_neg hz, if_neg hcs]
      have hpos : ∀ e ∈ (runChecks l now (toolChecks toolID team agentID g t a)).2,
          0 < e.2.1 := by
        intro e he
        have : e.2.1 ∈ (toolChecks toolID team agentID g t a).map ScopeCheck.rate := by
          rw [← hmap]
          exact List.mem_map_of_mem _ he
        obtain ⟨c, hc, hrate⟩ := List.mem_map.mp this
        rw [← hrate]
        exact toolChecks_rate_pos toolID team agentID g t a c hc
      have htrne : (runChecks l now (toolChecks toolID team agentID g t a)).2 ≠ [] := by
        intro hnil
        apply hcs
        have := hmap
        rw [hnil] at this
        exact List.map_eq_nil_iff.mp this.symm
      refine ⟨?_, hmap, fun h => absurd h hcs, fun _ => ?_⟩
      · rw [hres]
        exact List.all_eq_true
      · obtain ⟨e1, rest, htr⟩ := List.exists_cons_of_ne_nil htrne
        have hsel := selectTightest_spec e1 rest (htr ▸ hpos)
        rw [hres]
        constructor
        · obtain ⟨e, he, hsel1⟩ := hsel.1
          exact ⟨e, htr ▸ he, by rw [htr, ← hsel1], by rw [htr, ← hsel1],
            by rw [htr, ← hsel1]⟩
        · intro e he
          rw [htr] at he
          have := hsel.2 e he
          rw [htr]
          exact this

/-- Witness for C4: global rate 10 and agent rate 2 on a fresh limiter;
the call allows and the reported limit is bounded by both scope rates. -/
theorem checkToolRateLimit_spec_witness :
    (checkToolRateLimit (Limiter.new 5 60) 0 "T" "" "A" 10 0 2).2.allowed = true ∧
    (checkToolRateLimit (Limiter.new 5 60) 0 "T" "" "A" 10 0 2).2.limit ≤ 10 ∧
    (checkToolRateLimit (Limiter.new 5 60) 0 "T" "" "A" 10 0 2).2.limit ≤ 2 := by
  have h := checkToolRateLimit_spec (Limiter.new 5 60) 0 "T" "" "A" 10 0 2
  have hcs : toolChecks "T" "" "A" 10 0 2 =
      [⟨"tool:T", 10⟩, ⟨"tool:T:agent:A", 2⟩] := by decide
  have hne : ("tool:T" : String) ≠ "tool:T:agent:A" := by decide
  have hne' : ("tool:T:agent:A" : String) ≠ "tool:T" := by decide
  have htr : (runChecks (Limiter.new 5 60) 0 (toolChecks "T" "" "A" 10 0 2)).2 =
      [(true, (10, 9, 6)), (true, (2, 1, 30))] := by
    rw [hcs]
    norm_num [runChecks, Limiter.allow, Limiter.status, Limiter.effectiveRate,
      Limiter.getBucket, lookupBucket, refill, setBucket, Limiter.new, hne, hne']
  refine ⟨?_, ?_, ?_⟩
  · apply h.1.mpr
    rw [htr]
    intro e he
    rcases List.mem_cons.mp he with rfl | he'
    · rfl
    · rcases List.mem_cons.mp he' with rfl | he''
      · rfl
      · simp at he''
  · have := (h.2.2.2 (by rw [hcs]; simp)).2 (true, (10, 9, 6)) (by rw [htr]; simp)
    exact this
  · have := (h.2.2.2 (by rw [hcs]; simp)).2 (true, (2, 1, 30)) (by rw [htr]; simp)
    exact this

/-! ### Claim C9: a denied call still drains the permitting buckets -/

/-- `Allow` on an existing bucket with no elapsed time: refill is a no-op, so
the outcome depends only on the stored token count, and the rate is
overwritten with the rate passed. -/
lemma allow_existing_no_elapse (l : Limiter) (now : ℚ) (k : String) (c : ℤ)
    (b : Bucket) (hc : 0 < c) (hl : lookupBucket l.buckets k = some b)
    (hfresh : now ≤ b.lastRefill) :
    l.allow now k c =
      if b.tokens < 1 then
        ({ l with buckets := setBucket l.buckets k { b with rate := c } }, false)
      else
        ({ l with buckets :=
            setBucket l.buckets k { b with tokens := b.tokens - 1, rate := c } }, true) := by
  have heff : l.effectiveRate c = c := if_pos hc
  have hgb : l.getBucket now k c = { b with rate := c } := by
    unfold Limiter.getBucket; rw [hl]
  have hrf : refill l.window now { b with rate := c } = { b with rate := c } := by
    unfold refill
    rw [if_pos (show now - ({ b with rate := c } : Bucket).lastRefill ≤ 0 from
      sub_nonpos.mpr hfresh)]
  simp only [Limiter.allow, heff, hgb, hrf]

/-- `Status` on an existing bucket with no elapsed time only overwrites the
bucket's rate. -/
lemma status_fst_existing_no_elapse (l : Limiter) (now : ℚ) (k : String) (c : ℤ)
    (b : Bucket) (hc : 0 < c) (hl : lookupBucket l.buckets k = some b)
    (hfresh : now ≤ b.lastRefill) :
    (l.status now k c).1 =
      { l with buckets := setBucket l.buckets k { b with rate := c } } := by
  have heff : l.effectiveRate c = c := if_pos hc
  have hgb : l.getBucket now k c = { b with rate := c } := by
    unfold Limiter.getBucket; rw [hl]
  have hrf : refill l.window now { b with rate := c } = { b with rate := c } := by
    unfold refill
    rw [if_pos (show now - ({ b with rate := c } : Bucket).lastRefill ≤ 0 from
      sub_nonpos.mpr hfresh)]
  simp only [Limiter.status, heff, hgb, hrf]

lemma toolKeyGlobal_ne_agent (toolID agentID : String) :
    toolKeyGlobal toolID ≠ toolKeyAgent toolID agentID := by
  intro h
  have hlen := congrArg String.length h
  rw [toolKeyGlobal, toolKeyAgent] at hlen
  simp only [String.length_append] at hlen
  have h7 : (":agent:" : String).length = 7 := by decide
  omega

/-- Claim C9: with a positive global rate and a positive agent rate (team
unconfigured), when the global bucket is exhausted and denies, the agent
scope's `Allow` is still invoked afterwards — the loop has no early exit —
so the agent bucket loses a token even though the overall call is denied. -/
theorem denied_call_drains_other_buckets (l : Limiter) (now : ℚ)
    (toolID team agentID : String) (g a : ℤ) (hg : 0 < g) (ha : 0 < a)
    (bG bA : Bucket)
    (hlG : lookupBucket l.buckets (toolKeyGlobal toolID) = some bG)
    (hlA : lookupBucket l.buckets (toolKeyAgent toolID agentID) = some bA)
    (hGfresh : now ≤ bG.lastRefill) (hAfresh : now ≤ bA.lastRefill)
    (hGtok : bG.tokens < 1) (hAtok : 1 ≤ bA.tokens) :
    (checkToolRateLimit l now toolID team agentID g 0 a).2.allowed = false ∧
      lookupBucket (checkToolRateLimit l now toolID team agentID g 0 a).1.buckets
        (toolKeyAgent toolID agentID) =
        some ⟨bA.tokens - 1, bA.lastRefill, a⟩ := by
  have hkne := toolKeyGlobal_ne_agent toolID agentID
  have hcs : toolChecks toolID team agentID g 0 a =
      [⟨toolKeyGlobal toolID, g⟩, ⟨toolKeyAgent toolID agentID, a⟩] := by
    simp [toolChecks, hg, ha]
  -- Step 1: Allow on the exhausted global bucket is denied.
  have h1 := allow_existing_no_elapse l now (toolKeyGlobal toolID) g bG hg hlG hGfresh
  rw [if_pos hGtok] at h1
  set b1 : Bucket := { bG with rate := g } with hb1
  set l1 : Limiter := { l with buckets := setBucket l.buckets (toolKeyGlobal toolID) b1 } with hl1
  -- Step 2: Status on the global bucket rewrites the same bucket back.
  have hl1G : lookupBucket l1.buckets (toolKeyGlobal toolID) = some b1 :=
    lookupBucket_setBucket_self _ _ _
  have h2 := status_fst_existing_no_elapse l1 now (toolKeyGlobal toolID) g b1 hg hl1G
    (by show now ≤ bG.lastRefill; exact hGfresh)
  have hb1r : ({ b1 with rate := g } : Bucket) = b1 := by rw [hb1]
  rw [hb1r] at h2
  set l2 : Limiter := { l1 with buckets := setBucket l1.buckets (toolKeyGlobal toolID) b1 } with hl2
  -- Step 3: Allow on the agent bucket is still invoked and consumes a token.
  have hl2A : lookupBucket l2.buckets (toolKeyAgent toolID agentID) = some bA := by
    show lookupBucket (setBucket l1.buckets (toolKeyGlobal toolID) b1)
      (toolKeyAgent toolID agentID) = some bA
    rw [lookupBucket_setBucket_ne _ _ _ _ hkne]
    show lookupBucket (setBucket l.buckets (toolKeyGlobal toolID) b1)
      (toolKeyAgent toolID agentID) = some bA
    rw [lookupBucket_setBucket_ne _ _ _ _ hkne]
    exact hlA
  have h3 := allow_existing_no_elapse l2 now (toolKeyAgent toolID agentID) a bA ha hl2A
    hAfresh
  rw [if_neg (by linarith : ¬ bA.tokens < 1)] at h3
  set b3 : Bucket := { bA with tokens := bA.tokens - 1, rate := a } with hb3
  set l3 : Limiter := { l2 with buckets := setBucket l2.buckets (toolKeyAgent toolID agentID) b3 } with hl3
  -- Step 4: Status on the agent bucket.
  have hl3A : lookupBucket l3.buckets (toolKeyAgent toolID agentID) = some b3 :=
    lookupBucket_setBucket_self _ _ _
  have h4 := status_fst_existing_no_elapse l3 now (toolKeyAgent toolID agentID) a b3 ha
    hl3A (by show now ≤ bA.lastRefill; exact hAfresh)
  have hb3r : ({ b3 with rate := a } : Bucket) = b3 := by rw [hb3]
  rw [hb3r] at h4
  -- Assemble the run.
  have hrun : runChecks l now (toolChecks toolID team agentID g 0 a) =
      ((l3.status now (toolKeyAgent toolID agentID) a).1,
        [(false, (l1.status now (toolKeyGlobal toolID) g).2),
         (true, (l3.status now (toolKeyAgent toolID agentID) a).2)]) := by
    rw [hcs]
    simp only [runChecks_cons, runChecks_nil, h1, h2, h3]
  have hres : checkToolRateLimit l now toolID team agentID g 0 a =
      ((runChecks l now (toolChecks toolID team agentID g 0 a)).1,
        ⟨(runChecks l now (toolChecks toolID team agentID g 0 a)).2.all (fun e => e.1),
          (selectTightest (runChecks l now (toolChecks toolID team agentID g 0 a)).2).1,
          (selectTightest (runChecks l now (toolChecks toolID team agentID g 0 a)).2).2.1,
          (selectTightest (runChecks l now (toolChecks toolID team agentID g 0 a)).2).2.2⟩) := by
    unfold checkToolRateLimit
    rw [if_neg (by intro hcon; exact absurd hcon.1 (by omega)), if_neg (by rw [hcs]; simp)]
  constructor
  · rw [hres]
    show ((runChecks l now (toolChecks toolID team agentID g 0 a)).2.all (fun e => e.1)) = false
    rw [hrun]
    simp
  · rw [hres]
    show lookupBucket (runChecks l now (toolChecks toolID team agentID g 0 a)).1.buckets
      (toolKeyAgent toolID agentID) = some b3
    rw [hrun]
    show lookupBucket (l3.status now (toolKeyAgent toolID agentID) a).1.buckets
      (toolKeyAgent toolID agentID) = some b3
    rw [h4]
    show lookupBucket (setBucket l3.buckets (toolKeyAgent toolID agentID) b3)
      (toolKeyAgent toolID agentID) = some b3
    rw [lookupBucket_setBucket_self]

/-- Witness for C9: global bucket exhausted (rate 3), agent bucket at 2
tokens (rate 1): the call is denied, yet the agent bucket drops to 1. -/
theorem denied_call_drains_other_buckets_witness :
    (checkToolRateLimit ⟨[("tool:T", ⟨0, 0, 3⟩), ("tool:T:agent:A", ⟨2, 0, 1⟩)], 5, 60⟩
      0 "T" "" "A" 3 0 1).2.allowed = false ∧
    lookupBucket (checkToolRateLimit
      ⟨[("tool:T", ⟨0, 0, 3⟩), ("tool:T:agent:A", ⟨2, 0, 1⟩)], 5, 60⟩
      0 "T" "" "A" 3 0 1).1.buckets "tool:T:agent:A" = some ⟨1, 0, 1⟩ := by
  have h := denied_call_drains_other_buckets
    ⟨[("tool:T", ⟨0, 0, 3⟩), ("tool:T:agent:A", ⟨2, 0, 1⟩)], 5, 60⟩
    0 "T" "" "A" 3 1 (by norm_num) (by norm_num) ⟨0, 0, 3⟩ ⟨2, 0, 1⟩
    (by decide) (by decide)
    (by norm_num) (by norm_num) (by norm_num) (by norm_num)
  have h1 : ((2 : ℚ) - 1) = 1 := by norm_num
  constructor
  · exact h.1
  · have hfin := h.2
    rw [show (⟨(2 : ℚ) - 1, 0, 1⟩ : Bucket) = (⟨1, 0, 1⟩ : Bucket) from by rw [h1]] at hfin
    have hkey : toolKeyAgent "T" "A" = "tool:T:agent:A" := by decide
    rw [hkey] at hfin
    exact hfin

/-! ## Template engine (`internal/registry/template.go`)

The pattern is a ``placeholder in braces``, the name of one to 64 characters
from `[a-zA-Z0-9_-]`.  RE2's leftmost scan of this pattern is embedded
directly: at a brace the maximal run of name characters is taken; a match
requires the run to be non-empty, at most 64 long, and followed by the
closing brace (a longer run cannot match with fewer characters, because the
character after a shorter prefix is still a name character).  Strings are
`List Char` here for ease of induction. -/

/-- The placeholder name character class `[a-zA-Z0-9_-]`. -/
def isNameChar (c : Char) : Bool := c.isAlpha || c.isDigit || c = '_' || c = '-'

/-- Split the maximal run of name characters off the front. -/
def takeName : List Char → List Char × List Char
  | [] => ([], [])
  | c :: rest =>
    if isNameChar c then
      ((takeName rest).1.cons c, (takeName rest).2)
    else ([], c :: rest)

lemma takeName_snd_length : ∀ l : List Char, (takeName l).2.length ≤ l.length := by
  intro l
  induction l with
  | nil => simp [takeName]
  | cons c rest ih =>
    simp only [takeName]
    by_cases h : isNameChar c
    · rw [if_pos h]
      exact le_trans ih (by simp)
    · rw [if_neg h]

/-- A template decomposes into literal characters and placeholder matches. -/
inductive TPart where
  | lit (c : Char)
  | var (name : List Char)
  deriving Repr, DecidableEq

/-- Leftmost non-overlapping scan of the placeholder pattern, as performed
by both `ReplaceAllStringFunc` and `FindAllStringSubmatch`. -/
def scanT (l : List Char) : List TPart :=
  match l with
  | [] => []
  | c :: rest =>
    if c = '{' then
      match hp : (takeName rest).2 with
      | '}' :: rest3 =>
        if (takeName rest).1 ≠ [] ∧ (takeName rest).1.length ≤ 64 then
          TPart.var (takeName rest).1 :: scanT rest3
        else TPart.lit c :: scanT rest
      | _ => TPart.lit c :: scanT rest
    else TPart.lit c :: scanT rest
  termination_by l.length
  decreasing_by
  · have h := takeName_snd_length rest
    rw [hp] at h
    simp at h ⊢
    omega
  · simp
  · simp
  · simp

/-- The accumulator pass of `ResolveTemplate`'s `ReplaceAllStringFunc`
callback: build the output left to right; a placeholder with no matching
variable is kept verbatim and recorded as the (last) missing name. -/
def resolveFold (vars : List (List Char × List Char)) :
    List TPart → List Char × Option (List Char) → List Char × Option (List Char)
  | [], acc => acc
  | .lit c :: rest, acc => resolveFold vars rest (acc.1 ++ [c], acc.2)
  | .var n :: rest, acc =>
    match List.lookup n vars with
    | some v => resolveFold vars rest (acc.1 ++ v, acc.2)
    | none => resolveFold vars rest (acc.1 ++ ('{' :: (n ++ ['}'])), some n)

/-- `ResolveTemplate`: single left-to-right pass; error (naming the missing
variable) when any placeholder has no matching variable. -/
def resolveTemplate (tmpl : List Char) (vars : List (List Char × List Char)) :
    Except (List Char) (List Char) :=
  match resolveFold vars (scanT tmpl) ([], none) with
  | (_, some n) => .error n
  | (out, none) => .ok out

/-- `ExtractTemplateVars`: unique placeholder names in encounter order. -/
def extractTemplateVars (tmpl : List Char) : List (List Char) :=
  (scanT tmpl).foldl (fun acc p =>
    match p with
    | .lit _ => acc
    | .var n => if n ∈ acc then acc else acc ++ [n]) []

/-- A word matching the placeholder pattern. -/
def IsPlaceholder (w : List Char) : Prop :=
  ∃ name : List Char, w = '{' :: (name ++ ['}']) ∧ name ≠ [] ∧
    name.length ≤ 64 ∧ name.all isNameChar

/-- The string contains a substring matching the placeholder pattern. -/
def ContainsPlaceholder (s : List Char) : Prop :=
  ∃ pre w post, s = pre ++ w ++ post ∧ IsPlaceholder w

/-! ### Claim C3: template round-trip -/

/-- Counterexample to C3 as stated: for the template `{a}` and variables
`a ↦ {b}` every extracted placeholder has a variable, resolution succeeds,
yet the result `{b}` still contains a substring matching the placeholder
pattern, because substituted values are not placeholder-free. -/
theorem resolve_placeholder_cex :
    extractTemplateVars ['{', 'a', '}'] = [['a']] ∧
    (List.lookup ['a'] [(['a'], ['{', 'b', '}'])]).isSome = true ∧
    resolveTemplate ['{', 'a', '}'] [(['a'], ['{', 'b', '}'])] =
      Except.ok ['{', 'b', '}'] ∧
    ContainsPlaceholder ['{', 'b', '}'] := by
  refine ⟨?_, by decide, ?_, ?_⟩
  · simp [extractTemplateVars, scanT, takeName, isNameChar]
  · simp [resolveTemplate, resolveFold, scanT, takeName, isNameChar, List.lookup]
  · exact ⟨[], ['{', 'b', '}'], [], by simp,
      ['b'], rfl, by decide, by decide, by decide⟩

/-- The output of a fully-substituted pass: literals kept, placeholders
replaced by their variable's value. -/
def renderOk (vars : List (List Char × List Char)) : List TPart → List Char
  | [] => []
  | .lit c :: rest => c :: renderOk vars rest
  | .var n :: rest => ((List.lookup n vars).getD []) ++ renderOk vars rest

lemma resolveFold_no_missing (vars : List (List Char × List Char)) :
    ∀ (ps : List TPart) (acc : List Char),
      (∀ n, TPart.var n ∈ ps → (List.lookup n vars).isSome) →
      resolveFold vars ps (acc, none) = (acc ++ renderOk vars ps, none) := by
  intro ps
  induction ps with
  | nil => intro acc _; simp [resolveFold, renderOk]
  | cons p rest ih =>
    intro acc h
    cases p with
    | lit c =>
      show resolveFold vars rest (acc ++ [c], none) = _
      rw [ih (acc ++ [c]) (fun n hn => h n (List.mem_cons_of_mem _ hn))]
      simp [renderOk]
    | var n =>
      have hs := h n (List.mem_cons_self _ _)
      obtain ⟨v, hv⟩ := Option.isSome_iff_exists.mp hs
      simp only [resolveFold, hv]
      rw [ih (acc ++ v) (fun n' hn' => h n' (List.mem_cons_of_mem _ hn'))]
      simp [renderOk, hv, List.append_assoc]

lemma renderOk_no_brace (vars : List (List Char × List Char)) :
    ∀ ps : List TPart,
      (∀ n v, List.lookup n vars = some v → '{' ∉ v) →
      (∀ c, TPart.lit c ∈ ps → c ≠ '{') →
      '{' ∉ renderOk vars ps := by
  intro ps
  induction ps with
  | nil => intro _ _; simp [renderOk]
  | cons p rest ih =>
    intro hv hl
    cases p with
    | lit c =>
      simp only [renderOk]
      intro h
      rcases List.mem_cons.mp h with h1 | h1
      · exact hl c (List.mem_cons_self _ _) h1.symm
      · exact ih hv (fun c' hc' => hl c' (List.mem_cons_of_mem _ hc')) h1
    | var n =>
      simp only [renderOk]
      intro h
      rcases List.mem_append.mp h with h1 | h1
      · cases hlk : List.lookup n vars with
        | some v =>
          rw [hlk] at h1
          simp only [Option.getD_some] at h1
          exact hv n v hlk h1
        | none =>
          rw [hlk] at h1
          simp at h1
      · exact ih hv (fun c' hc' => hl c' (List.mem_cons_of_mem _ hc')) h1

lemma not_contains_of_no_brace (s : List Char) (h : '{' ∉ s) :
    ¬ ContainsPlaceholder s := by
  rintro ⟨pre, w, post, heq, name, hw, -, -, -⟩
  apply h
  rw [heq, hw]
  simp

lemma extract_foldl_mem : ∀ (ps : List TPart) (acc : List (List Char)) (n : List Char),
    (n ∈ ps.foldl (fun acc p => match p with
      | TPart.lit _ => acc
      | TPart.var m => if m ∈ acc then acc else acc ++ [m]) acc ↔
    n ∈ acc ∨ TPart.var n ∈ ps) := by
  intro ps
  induction ps with
  | nil => intro acc n; simp
  | cons p rest ih =>
    intro acc n
    cases p with
    | lit c =>
      simp only [List.foldl_cons]
      rw [ih]
      constructor
      · rintro (h | h)
        · exact Or.inl h
        · exact Or.inr (List.mem_cons_of_mem _ h)
      · rintro (h | h)
        · exact Or.inl h
        · rcases List.mem_cons.mp h with h' | h'
          · exact absurd h' (by simp)
          · exact Or.inr h'
    | var m =>
      simp only [List.foldl_cons]
      by_cases hm : m ∈ acc
      · rw [if_pos hm, ih]
        constructor
        · rintro (h | h)
          · exact Or.inl h
          · exact Or.inr (List.mem_cons_of_mem _ h)
        · rintro (h | h)
          · exact Or.inl h
          · rcases List.mem_cons.mp h with h' | h'
            · injection h' with h''
              exact Or.inl (h'' ▸ hm)
            · exact Or.inr h'
      · rw [if_neg hm, ih]
        constructor
        · rintro (h | h)
          · rcases List.mem_append.mp h with h' | h'
            · exact Or.inl h'
            · simp only [List.mem_singleton] at h'
              exact Or.inr (h' ▸ List.mem_cons_self _ _)
          · exact Or.inr (List.mem_cons_of_mem _ h)
        · rintro (h | h)
          · exact Or.inl (List.mem_append.mpr (Or.inl h))
          · rcases List.mem_cons.mp h with h' | h'
            · injection h' with h''
              exact Or.inl (List.mem_append.mpr (Or.inr (by simp [h''])))
            · exact Or.inr h'

lemma mem_extract_iff (tmpl : List Char) (n : List Char) :
    n ∈ extractTemplateVars tmpl ↔ TPart.var n ∈ scanT tmpl := by
  unfold extractTemplateVars
  rw [extract_foldl_mem]
  simp

lemma resolveFold_some_isSome (vars : List (List Char × List Char)) :
    ∀ (ps : List TPart) (acc : List Char) (x : List Char),
      (resolveFold vars ps (acc, some x)).2.isSome := by
  intro ps
  induction ps with
  | nil => intro acc x; simp [resolveFold]
  | cons p rest ih =>
    intro acc x
    cases p with
    | lit c => exact ih (acc ++ [c]) x
    | var n =>
      cases hlk : List.lookup n vars with
      | some v =>
        simp only [resolveFold, hlk]
        exact ih _ x
      | none =>
        simp only [resolveFold, hlk]
        exact ih _ n

lemma resolveFold_missing_isSome (vars : List (List Char × List Char)) :
    ∀ (ps : List TPart) (acc : List Char) (m : Option (List Char)) (n : List Char),
      TPart.var n ∈ ps → List.lookup n vars = none →
      (resolveFold vars ps (acc, m)).2.isSome := by
  intro ps
  induction ps with
  | nil => intro acc m n h _; simp at h
  | cons p rest ih =>
    intro acc m n hmem hnone
    cases p with
    | lit c =>
      have hmem' : TPart.var n ∈ rest := by
        rcases List.mem_cons.mp hmem with h | h
        · exact absurd h (by simp)
        · exact h
      exact ih (acc ++ [c]) m n hmem' hnone
    | var k =>
      cases hlk : List.lookup k vars with
      | some v =>
        have hmem' : TPart.var n ∈ rest := by
          rcases List.mem_cons.mp hmem with h | h
          · injection h with h'
            rw [h'] at hnone
            rw [hnone] at hlk
            exact absurd hlk (by simp)
          · exact h
        simp only [resolveFold, hlk]
        exact ih _ m n hmem' hnone
      | none =>
        simp only [resolveFold, hlk]
        exact resolveFold_some_isSome vars rest _ k

lemma resolveFold_snd_spec (vars : List (List Char × List Char)) :
    ∀ (ps : List TPart) (acc : List Char) (m : Option (List Char)),
      (resolveFold vars ps (acc, m)).2 = m ∨
      ∃ n, (resolveFold vars ps (acc, m)).2 = some n ∧ TPart.var n ∈ ps ∧
        List.lookup n vars = none := by
  intro ps
  induction ps with
  | nil => intro acc m; exact Or.inl rfl
  | cons p rest ih =>
    intro acc m
    cases p with
    | lit c =>
      rcases ih (acc ++ [c]) m with h | ⟨n, h1, h2, h3⟩
      · exact Or.inl h
      · exact Or.inr ⟨n, h1, List.mem_cons_of_mem _ h2, h3⟩
    | var k =>
      cases hlk : List.lookup k vars with
      | some v =>
        have hred : resolveFold vars (TPart.var k :: rest) (acc, m) =
            resolveFold vars rest (acc ++ v, m) := by
          simp only [resolveFold, hlk]
        rw [hred]
        rcases ih (acc ++ v) m with h | ⟨n, h1, h2, h3⟩
        · exact Or.inl h
        · exact Or.inr ⟨n, h1, List.mem_cons_of_mem _ h2, h3⟩
      | none =>
        have hred : resolveFold vars (TPart.var k :: rest) (acc, m) =
            resolveFold vars rest (acc ++ ('{' :: (k ++ ['}'])), some k) := by
          simp only [resolveFold, hlk]
        rw [hred]
        rcases ih (acc ++ ('{' :: (k ++ ['}']))) (some k) with h | ⟨n, h1, h2, h3⟩
        · exact Or.inr ⟨k, h, List.mem_cons_self _ _, hlk⟩
        · exact Or.inr ⟨n, h1, List.mem_cons_of_mem _ h2, h3⟩

/-- Claim C3 (amended): when the variables map covers every extracted
placeholder, `ResolveTemplate` succeeds and its result is the single-pass
substitution of the template; the result is placeholder-free provided the
substituted values and the template's unmatched literal characters contain
no opening brace.  When some extracted placeholder is absent from the map,
`ResolveTemplate` fails and the error names a missing placeholder.  As
stated the claim fails, because a substituted value may itself introduce a
placeholder-shaped substring into the result. -/
theorem resolve_success_and_missing (tmpl : List Char)
    (vars : List (List Char × List Char)) :
    ((∀ n ∈ extractTemplateVars tmpl, (List.lookup n vars).isSome) →
      resolveTemplate tmpl vars = Except.ok (renderOk vars (scanT tmpl)) ∧
      ((∀ n v, List.lookup n vars = some v → '{' ∉ v) →
        (∀ c, TPart.lit c ∈ scanT tmpl → c ≠ '{') →
        ¬ ContainsPlaceholder (renderOk vars (scanT tmpl)))) ∧
    (∀ n ∈ extractTemplateVars tmpl, List.lookup n vars = none →
      ∃ m, resolveTemplate tmpl vars = Except.error m ∧
        m ∈ extractTemplateVars tmpl ∧ List.lookup m vars = none) := by
  constructor
  · intro hall
    have hall' : ∀ n, TPart.var n ∈ scanT tmpl → (List.lookup n vars).isSome :=
      fun n hn => hall n ((mem_extract_iff tmpl n).mpr hn)
    have hfold := resolveFold_no_missing vars (scanT tmpl) [] hall'
    constructor
    · unfold resolveTemplate
      rw [hfold]
      rfl
    · intro hv hl
      exact not_contains_of_no_brace _ (renderOk_no_brace vars (scanT tmpl) hv hl)
  · intro n hmem hnone
    have hsome := resolveFold_missing_isSome vars (scanT tmpl) [] none n
      ((mem_extract_iff tmpl n).mp hmem) hnone
    rcases resolveFold_snd_spec vars (scanT tmpl) [] none with h | ⟨m, h1, h2, h3⟩
    · rw [h] at hsome
      simp at hsome
    · refine ⟨m, ?_, (mem_extract_iff tmpl m).mpr h2, h3⟩
      unfold resolveTemplate
      rcases hr : resolveFold vars (scanT tmpl) ([], none) with ⟨out, snd⟩
      rw [hr] at h1
      simp only at h1
      rw [h1]

/-- Witness for the amended C3: the template `{a}` with `a ↦ y` resolves to
`y`, which is placeholder-free. -/
theorem resolve_success_and_missing_witness :
    resolveTemplate ['{', 'a', '}'] [(['a'], ['y'])] = Except.ok ['y'] ∧
    ¬ ContainsPlaceholder ['y'] := by
  have hscan : scanT ['{', 'a', '}'] = [TPart.var ['a']] := by
    simp [scanT, takeName, isNameChar]
  have hextract : extractTemplateVars ['{', 'a', '}'] = [['a']] := by
    simp [extractTemplateVars, hscan]
  have h := (resolve_success_and_missing ['{', 'a', '}'] [(['a'], ['y'])]).1 (by
    intro n hn
    rw [hextract] at hn
    simp only [List.mem_singleton] at hn
    subst hn
    decide)
  have hrender : renderOk [(['a'], ['y'])] (scanT ['{', 'a', '}']) = ['y'] := by
    rw [hscan]
    simp [renderOk, List.lookup]
  constructor
  · rw [h.1, hrender]
  · have hnp := h.2 (by
      intro n v hlk
      simp only [List.lookup] at hlk
      by_cases hn : (n == (['a'] : List Char)) = true
      · simp only [hn] at hlk
        injection hlk with hlk'
        rw [← hlk']
        decide
      · simp only [Bool.not_eq_true] at hn
        simp only [hn] at hlk
        exact absurd hlk (by simp))
      (by
        intro c hc
        rw [hscan] at hc
        simp at hc)
    rw [hrender] at hnp
    exact hnp

/-! ## Budget store (`internal/agent/budget_store.go`)

Database rows become explicit row lists; the SQL `SUM(cost) ... WHERE
timestamp >= $n` becomes a filtered sum.  A UTC instant is decomposed the
way the Go code truncates it with `time.Date`: calendar date plus the time
of day, compared chronologically. -/

/-- A UTC instant: calendar date plus seconds within the day. -/
structure DateTime where
  year : ℤ
  month : ℤ
  day : ℤ
  tod : ℚ
  deriving Repr, DecidableEq

/-- Chronological order of decomposed instants (`timestamp >= $n`). -/
def DateTime.le (a b : DateTime) : Bool :=
  if a.year = b.year then
    if a.month = b.month then
      if a.day = b.day then decide (a.tod ≤ b.tod)
      else decide (a.day < b.day)
    else decide (a.month < b.month)
  else decide (a.year < b.year)

/-- `time.Date(y, m, d, 0, 0, 0, 0, UTC)`: start of the current UTC day. -/
def startOfDay (now : DateTime) : DateTime := ⟨now.year, now.month, now.day, 0⟩

/-- `time.Date(y, m, 1, 0, 0, 0, 0, UTC)`: start of the current UTC month. -/
def startOfMonth (now : DateTime) : DateTime := ⟨now.year, now.month, 1, 0⟩

/-- A `transactions` row (the columns the budget queries read). -/
structure TxnRow where
  agentID : String
  toolID : String
  ts : DateTime
  cost : ℚ
  deriving Repr, DecidableEq

/-- `SUM(cost)` over an agent's transactions for a tool since an instant. -/
def spendAgentTool (txns : List TxnRow) (agentID toolID : String)
    (since : DateTime) : ℚ :=
  ((txns.filter (fun t => t.agentID == agentID && t.toolID == toolID &&
    DateTime.le since t.ts)).map TxnRow.cost).sum

/-- `SUM(cost)` over all transactions for a tool since an instant. -/
def spendTool (txns : List TxnRow) (toolID : String) (since : DateTime) : ℚ :=
  ((txns.filter (fun t => t.toolID == toolID &&
    DateTime.le since t.ts)).map TxnRow.cost).sum

/-- An `agent_tool_budgets` row. -/
structure BudgetRow where
  agentID : String
  toolID : String
  dailyLimit : ℚ
  monthlyLimit : ℚ
  deriving Repr, DecidableEq

/-- `Get`: the unique row keyed by (agent, tool), if any. -/
def getBudget (rows : List BudgetRow) (agentID toolID : String) :
    Option BudgetRow :=
  rows.find? (fun b => b.agentID == agentID && b.toolID == toolID)

/-- `CheckBudget`: an absent row is `pgx.ErrNoRows` surfaced as an error;
a zero limit is unlimited; each configured window denies when its spend
reaches its limit; remaining amounts are clamped at 0. -/
def checkBudget (rows : List BudgetRow) (txns : List TxnRow) (now : DateTime)
    (agentID toolID : String) : Except String (Bool × ℚ × ℚ) :=
  match getBudget rows agentID toolID with
  | none => .error "checking budget: getting budget: no rows in result set"
  | some budget =>
    let dailySpend := spendAgentTool txns agentID toolID (startOfDay now)
    let monthlySpend := spendAgentTool txns agentID toolID (startOfMonth now)
    let remainingDaily :=
      if budget.dailyLimit > 0 then max 0 (budget.dailyLimit - dailySpend) else 0
    let remainingMonthly :=
      if budget.monthlyLimit > 0 then max 0 (budget.monthlyLimit - monthlySpend) else 0
    let allowed :=
      !(decide (budget.dailyLimit > 0) && decide (dailySpend ≥ budget.dailyLimit)) &&
      !(decide (budget.monthlyLimit > 0) && decide (monthlySpend ≥ budget.monthlyLimit))
    .ok (allowed, remainingDaily, remainingMonthly)

/-- `CheckToolGlobalBudget` over the tool's configured `budget_limit` and
`budget_window` (read from the tools table, taken as inputs here). -/
def checkToolGlobalBudget (budgetLimit : ℚ) (budgetWindow : String)
    (now : DateTime) (txns : List TxnRow) (toolID : String) : Bool × ℚ :=
  if budgetLimit = 0 then (true, 0)
  else
    let windowStart :=
      match budgetWindow with
      | "daily" => startOfDay now
      | "monthly" => startOfMonth now
      | _ => startOfMonth now
    let totalSpend := spendTool txns toolID windowStart
    (decide (totalSpend < budgetLimit), max 0 (budgetLimit - totalSpend))

/-! ### Claim C7: global tool budget check -/

/-- Claim C7: a zero limit allows; otherwise the spend is summed since the
window start (start of the UTC day for "daily", day 1 of the UTC month for
"monthly" and for any unrecognised window value), the check denies exactly
when spend ≥ limit, and remaining = limit − spend clamped at 0. -/
theorem toolGlobalBudget_spec (budgetLimit : ℚ) (budgetWindow : String)
    (now : DateTime) (txns : List TxnRow) (toolID : String) :
    (budgetLimit = 0 →
      checkToolGlobalBudget budgetLimit budgetWindow now txns toolID = (true, 0)) ∧
    (budgetLimit ≠ 0 →
      ((checkToolGlobalBudget budgetLimit budgetWindow now txns toolID).1 = true ↔
        spendTool txns toolID
          (if budgetWindow = "daily" then startOfDay now else startOfMonth now)
          < budgetLimit) ∧
      (checkToolGlobalBudget budgetLimit budgetWindow now txns toolID).2 =
        max 0 (budgetLimit - spendTool txns toolID
          (if budgetWindow = "daily" then startOfDay now else startOfMonth now))) := by
  constructor
  · intro h0
    unfold checkToolGlobalBudget
    rw [if_pos h0]
  · intro hne
    have hred : checkToolGlobalBudget budgetLimit budgetWindow now txns toolID =
        (decide (spendTool txns toolID
          (if budgetWindow = "daily" then startOfDay now else startOfMonth now)
          < budgetLimit),
         max 0 (budgetLimit - spendTool txns toolID
          (if budgetWindow = "daily" then startOfDay now else startOfMonth now))) := by
      unfold checkToolGlobalBudget
      rw [if_neg hne]
      by_cases hd : budgetWindow = "daily"
      · subst hd
        rfl
      · rw [if_neg hd]
        simp only []
        split
        · exact absurd rfl hd
        · rfl
        · rfl
    rw [hred]
    constructor
    · simp
    · rfl

/-- Witness for C7: limit 5, unrecognised window "weekly" treated as
monthly; June spend 3 counts, May spend does not; the check allows with
remaining 2. -/
theorem toolGlobalBudget_spec_witness :
    checkToolGlobalBudget 5 "weekly" ⟨2024, 6, 15, 3600⟩
      [⟨"A", "T", ⟨2024, 6, 1, 0⟩, 3⟩, ⟨"A", "T", ⟨2024, 5, 31, 0⟩, 10⟩] "T" =
      (true, 2) := by
  have h := (toolGlobalBudget_spec 5 "weekly" ⟨2024, 6, 15, 3600⟩
    [⟨"A", "T", ⟨2024, 6, 1, 0⟩, 3⟩, ⟨"A", "T", ⟨2024, 5, 31, 0⟩, 10⟩] "T").2
    (by norm_num)
  rw [if_neg (by decide : ¬ ("weekly" : String) = "daily")] at h
  have hspend : spendTool
      [⟨"A", "T", ⟨2024, 6, 1, 0⟩, 3⟩, ⟨"A", "T", ⟨2024, 5, 31, 0⟩, 10⟩] "T"
      (startOfMonth ⟨2024, 6, 15, 3600⟩) = 3 := by
    norm_num [spendTool, startOfMonth, DateTime.le, List.filter]
  rw [hspend] at h
  have h1 := h.1
  have h2 := h.2
  have hfst : (checkToolGlobalBudget 5 "weekly" ⟨2024, 6, 15, 3600⟩
      [⟨"A", "T", ⟨2024, 6, 1, 0⟩, 3⟩, ⟨"A", "T", ⟨2024, 5, 31, 0⟩, 10⟩] "T").1 = true :=
    h1.mpr (by norm_num)
  have hsnd : (checkToolGlobalBudget 5 "weekly" ⟨2024, 6, 15, 3600⟩
      [⟨"A", "T", ⟨2024, 6, 1, 0⟩, 3⟩, ⟨"A", "T", ⟨2024, 5, 31, 0⟩, 10⟩] "T").2 = 2 := by
    rw [h2]
    norm_num
  exact Prod.ext hfst hsnd

/-! ## Proxy handler (`internal/proxy/proxy.go`)

The handler only observes its collaborators through interfaces
(`ToolStore`, `BudgetChecker`, `ToolRateLimitChecker`, `MeteringRecorder`);
each call's result is therefore an input of the embedded decision pipeline,
and the recorded transactions are returned as the handler's effect. -/

/-- The upstream `X-Octroi-Cost` header as seen by `recordTransaction`:
`Header.Get` yields the empty string when absent; otherwise
`strconv.ParseFloat` either fails or yields a (possibly negative) value. -/
inductive CostHeader where
  | absent
  | invalid
  | value (q : ℚ)
  deriving Repr, DecidableEq

/-- The tool fields the proxy pipeline reads. -/
structure Tool where
  id : String
  name : String
  mode : String
  endpoint : List Char
  vars : List (List Char × List Char)
  authType : String
  authConfig : List (String × String)
  pricingModel : String
  pricingAmount : ℚ
  deriving Repr, DecidableEq

/-- The agent identity injected by the auth middleware. -/
structure Agent where
  id : String
  team : String
  deriving Repr, DecidableEq

/-- The cost determination of `recordTransaction`: a parsed non-negative
reported cost wins (`cost_source=reported`); otherwise a `per_request` tool
records its flat `pricing_amount`, and anything else records 0
(`cost_source=flat`). -/
def computeCost (reportedCostHeader : CostHeader) (pricingModel : String)
    (pricingAmount : ℚ) : ℚ × String :=
  match reportedCostHeader with
  | .value q =>
    if q ≥ 0 then (q, "reported")
    else if pricingModel = "per_request" then (pricingAmount, "flat")
    else (0, "flat")
  | .invalid =>
    if pricingModel = "per_request" then (pricingAmount, "flat") else (0, "flat")
  | .absent =>
    if pricingModel = "per_request" then (pricingAmount, "flat") else (0, "flat")

/-- A metering transaction (the fields the pipeline determines). -/
structure Transaction where
  agentID : String
  toolID : String
  method : String
  path : String
  statusCode : ℤ
  success : Bool
  cost : ℚ
  costSource : String
  deriving Repr, DecidableEq

/-- `recordTransaction`: build the transaction handed to the collector. -/
def recordTransaction (agentID : String) (tool : Tool) (method path : String)
    (statusCode : ℤ) (success : Bool) (reportedCostHeader : CostHeader) :
    Transaction :=
  let c := computeCost reportedCostHeader tool.pricingModel tool.pricingAmount
  { agentID := agentID, toolID := tool.id, method := method, path := path,
    statusCode := statusCode, success := success, cost := c.1, costSource := c.2 }

/-! ## Metering collector (`internal/metering/collector.go`) -/

/-- Collector state: the buffered transactions and the batches handed to the
store so far (the mutex and the background timer are not modelled; `Record`
is the only operation the proxy pipeline invokes). -/
structure Collector where
  buffer : List Transaction
  batchSize : ℕ
  flushed : List (List Transaction)
  deriving Repr, DecidableEq

/-- `Record`: append to the buffer; when the buffer reaches `batchSize`,
flush drains it into a batch for `BatchInsert`. -/
def Collector.record (c : Collector) (tx : Transaction) : Collector :=
  let buf := c.buffer ++ [tx]
  if c.batchSize ≤ buf.length then
    { c with buffer := [], flushed := c.flushed ++ [buf] }
  else { c with buffer := buf }

/-- The result of the upstream round-trip as the handler observes it. -/
inductive UpstreamResult where
  | transportError
  | response (status : ℤ) (costHeader : CostHeader)
  deriving Repr, DecidableEq

/-- The inputs of one `ServeHTTP` run: the URL parameter, the context
values, and the results of each collaborator call. -/
structure ProxyEnv where
  toolID : String
  toolLookup : Option Tool
  agent : Option Agent
  toolRL : Option (Option ToolRLResult)
  budgetResult : Except String (Bool × ℚ × ℚ)
  globalResult : Except String (Bool × ℚ)
  upstream : UpstreamResult
  method : String
  path : String

/-- The observable outcome of one `ServeHTTP` run. -/
structure ProxyOutcome where
  status : ℤ
  errorCode : Option String
  upstreamCalled : Bool
  recorded : List Transaction
  deriving Repr, DecidableEq

/-- `ServeHTTP`'s decision pipeline.  `toolRL = none` means no checker is
configured; `some none` means the checker returned an error (skipped,
fail-open); a budget check error is likewise fail-open. -/
def serveProxy (env : ProxyEnv) : ProxyOutcome :=
  if env.toolID = "" then ⟨400, some "bad_request", false, []⟩
  else
    match env.toolLookup with
    | none => ⟨404, some "not_found", false, []⟩
    | some tool =>
      match env.agent with
      | none => ⟨401, some "unauthorized", false, []⟩
      | some agent =>
        let rlRejected :=
          match env.toolRL with
          | some (some r) => !r.allowed
          | _ => false
        if rlRejected then ⟨429, some "tool_rate_limited", false, []⟩
        else
          let budgetRejected :=
            match env.budgetResult with
            | .ok (allowed, _, _) => !allowed
            | .error _ => false
          if budgetRejected then ⟨403, some "budget_exceeded", false, []⟩
          else
            let globalRejected :=
              match env.globalResult with
              | .ok (allowed, _) => !allowed
              | .error _ => false
            if globalRejected then ⟨403, some "budget_exceeded", false, []⟩
            else
              let endpointRes :=
                if tool.mode = "api" then resolveTemplate tool.endpoint tool.vars
                else .ok tool.endpoint
              match endpointRes with
              | .error _ => ⟨502, some "proxy_error", false, []⟩
              | .ok _ =>
                match env.upstream with
                | .transportError =>
                  ⟨502, some "proxy_error", true,
                    [recordTransaction agent.id tool env.method env.path 502 false
                      .absent]⟩
                | .response st hdr =>
                  ⟨st, none, true,
                    [recordTransaction agent.id tool env.method env.path st
                      (decide (200 ≤ st ∧ st < 300)) hdr]⟩

/-! ### Claim C6: recorded cost and cost source -/

/-- Claim C6: a header that parses as a non-negative float is recorded
verbatim with `cost_source = "reported"`; otherwise (absent, unparsable or
negative) a `per_request` tool records its `pricing_amount` and any other
pricing model records 0, with `cost_source = "flat"`. -/
theorem recorded_cost_spec (agentID : String) (tool : Tool) (method path : String)
    (st : ℤ) (succ : Bool) (hdr : CostHeader) :
    (∀ q : ℚ, hdr = .value q → 0 ≤ q →
      (recordTransaction agentID tool method path st succ hdr).cost = q ∧
      (recordTransaction agentID tool method path st succ hdr).costSource = "reported") ∧
    ((hdr = .absent ∨ hdr = .invalid ∨ ∃ q, hdr = .value q ∧ q < 0) →
      (tool.pricingModel = "per_request" →
        (recordTransaction agentID tool method path st succ hdr).cost = tool.pricingAmount ∧
        (recordTransaction agentID tool method path st succ hdr).costSource = "flat") ∧
      (tool.pricingModel ≠ "per_request" →
        (recordTransaction agentID tool method path st succ hdr).cost = 0 ∧
        (recordTransaction agentID tool method path st succ hdr).costSource = "flat")) := by
  constructor
  · intro q hq hnn
    subst hq
    simp [recordTransaction, computeCost, hnn]
  · intro hfall
    have hnotrep : computeCost hdr tool.pricingModel tool.pricingAmount =
        (if tool.pricingModel = "per_request" then (tool.pricingAmount, "flat")
          else (0, "flat")) := by
      rcases hfall with rfl | rfl | ⟨q, rfl, hneg⟩
      · rfl
      · rfl
      · simp [computeCost, not_le.mpr hneg]
    constructor
    · intro hpr
      constructor
      · show (computeCost hdr tool.pricingModel tool.pricingAmount).1 = _
        rw [hnotrep, if_pos hpr]
      · show (computeCost hdr tool.pricingModel tool.pricingAmount).2 = _
        rw [hnotrep, if_pos hpr]
    · intro hpr
      constructor
      · show (computeCost hdr tool.pricingModel tool.pricingAmount).1 = _
        rw [hnotrep, if_neg hpr]
      · show (computeCost hdr tool.pricingModel tool.pricingAmount).2 = _
        rw [hnotrep, if_neg hpr]

/-- Witness for C6: a reported cost of 1/20 on a `per_request` tool priced
1/100 is recorded as 1/20 with source "reported". -/
theorem recorded_cost_spec_witness :
    (recordTransaction "A" ⟨"T", "t", "service", [], [], "none", [], "per_request", 1/100⟩
      "GET" "/x" 200 true (.value (1/20))).cost = 1/20 ∧
    (recordTransaction "A" ⟨"T", "t", "service", [], [], "none", [], "per_request", 1/100⟩
      "GET" "/x" 200 true (.value (1/20))).costSource = "reported" :=
  (recorded_cost_spec "A" ⟨"T", "t", "service", [], [], "none", [], "per_request", 1/100⟩
    "GET" "/x" 200 true (.value (1/20))).1 (1/20) rfl (by norm_num)

/-! ### Claim C5: budget rejection short-circuits the pipeline -/

/-- Claim C5: when the per-agent budget check returns (no error, not
allowed), and the pipeline reached that stage, the handler responds 403
with code `budget_exceeded`, performs no upstream call, records no
transaction, and any collector state is unchanged. -/
theorem budget_rejection_no_upstream (env : ProxyEnv) (tool : Tool) (ag : Agent)
    (d m : ℚ)
    (hid : ¬ env.toolID = "")
    (htool : env.toolLookup = some tool)
    (hagent : env.agent = some ag)
    (hrl : ∀ r, env.toolRL = some (some r) → r.allowed = true)
    (hbudget : env.budgetResult = .ok (false, d, m)) :
    serveProxy env = ⟨403, some "budget_exceeded", false, []⟩ ∧
    ∀ c : Collector, (serveProxy env).recorded.foldl Collector.record c = c := by
  have hrlr : (match env.toolRL with
      | some (some r) => !r.allowed
      | _ => false) = false := by
    cases h : env.toolRL with
    | none => rfl
    | some o =>
      cases o with
      | none => rfl
      | some r => simp [hrl r h]
  have hmain : serveProxy env = ⟨403, some "budget_exceeded", false, []⟩ := by
    unfold serveProxy
    rw [if_neg hid, htool, hagent]
    simp only [hrlr, hbudget]
    rfl
  exact ⟨hmain, fun c => by rw [hmain]; rfl⟩

/-- Witness for C5: a concrete environment rejected by the agent budget. -/
theorem budget_rejection_no_upstream_witness :
    serveProxy ⟨"T1", some ⟨"T1", "t", "service", [], [], "none", [], "free", 0⟩,
      some ⟨"A1", ""⟩, none, Except.ok (false, 0, 0), Except.ok (true, 0),
      .response 200 .absent, "GET", "/proxy/T1/x"⟩ =
      ⟨403, some "budget_exceeded", false, []⟩ := by
  have h := budget_rejection_no_upstream
    ⟨"T1", some ⟨"T1", "t", "service", [], [], "none", [], "free", 0⟩,
      some ⟨"A1", ""⟩, none, Except.ok (false, 0, 0), Except.ok (true, 0),
      .response 200 .absent, "GET", "/proxy/T1/x"⟩
    ⟨"T1", "t", "service", [], [], "none", [], "free", 0⟩ ⟨"A1", ""⟩
    0 0 (by decide) rfl rfl (by intro r hr; injection hr) rfl
  exact h.1

/-! ### Claim C1: an unbudgeted (agent, tool) pair is admitted -/

lemma checkBudget_no_row (rows : List BudgetRow) (txns : List TxnRow)
    (now : DateTime) (agentID toolID : String)
    (h : getBudget rows agentID toolID = none) :
    checkBudget rows txns now agentID toolID =
      .error "checking budget: getting budget: no rows in result set" := by
  unfold checkBudget
  rw [h]

/-- Claim C1: when no `agent_tool_budgets` row exists for (agent, tool),
`CheckBudget` returns an error (from `Get`), and the handler's fail-open
treatment of that error admits the request: the pipeline reaches the
upstream call and never answers `budget_exceeded` (given the downstream
stages do not reject for their own reasons). -/
theorem unbudgeted_agent_admitted (env : ProxyEnv) (tool : Tool) (ag : Agent)
    (rows : List BudgetRow) (txns : List TxnRow) (nowD : DateTime)
    (hid : ¬ env.toolID = "")
    (htool : env.toolLookup = some tool)
    (hagent : env.agent = some ag)
    (hrl : ∀ r, env.toolRL = some (some r) → r.allowed = true)
    (hbudget : env.budgetResult = checkBudget rows txns nowD ag.id tool.id)
    (hnorow : getBudget rows ag.id tool.id = none)
    (hglobal : ∀ b rem, env.globalResult = Except.ok (b, rem) → b = true)
    (htmpl : tool.mode = "api" →
      ∃ ep, resolveTemplate tool.endpoint tool.vars = Except.ok ep) :
    (serveProxy env).upstreamCalled = true ∧
    (serveProxy env).errorCode ≠ some "budget_exceeded" := by
  have hrlr : (match env.toolRL with
      | some (some r) => !r.allowed
      | _ => false) = false := by
    cases h : env.toolRL with
    | none => rfl
    | some o =>
      cases o with
      | none => rfl
      | some r => simp [hrl r h]
  have hbr : (match env.budgetResult with
      | .ok (allowed, _, _) => !allowed
      | .error _ => false) = false := by
    rw [hbudget, checkBudget_no_row rows txns nowD ag.id tool.id hnorow]
  have hglob : (match env.globalResult with
      | .ok (allowed, _) => !allowed
      | .error _ => false) = false := by
    cases h : env.globalResult with
    | ok p =>
      obtain ⟨b, rem⟩ := p
      simp [hglobal b rem h]
    | error e => rfl
  obtain ⟨ep, hep⟩ : ∃ ep, (if tool.mode = "api"
      then resolveTemplate tool.endpoint tool.vars
      else Except.ok tool.endpoint) = Except.ok ep := by
    by_cases hm : tool.mode = "api"
    · rw [if_pos hm]
      exact htmpl hm
    · rw [if_neg hm]
      exact ⟨tool.endpoint, rfl⟩
  have hred : serveProxy env = (match env.upstream with
      | .transportError =>
        ⟨502, some "proxy_error", true,
          [recordTransaction ag.id tool env.method env.path 502 false .absent]⟩
      | .response st hdr =>
        ⟨st, none, true,
          [recordTransaction ag.id tool env.method env.path st
            (decide (200 ≤ st ∧ st < 300)) hdr]⟩) := by
    unfold serveProxy
    rw [if_neg hid, htool, hagent]
    simp only [hrlr, hbr, hglob, hep]
    simp
  rw [hred]
  cases env.upstream with
  | transportError => exact ⟨rfl, by simp⟩
  | response st hdr => exact ⟨rfl, by simp⟩

/-- Witness for C1: empty budget table, the global check errors (fail-open),
a service-mode tool; the upstream call happens and no budget rejection. -/
theorem unbudgeted_agent_admitted_witness :
    (serveProxy ⟨"T1", some ⟨"T1", "t", "service", [], [], "none", [], "free", 0⟩,
      some ⟨"A1", ""⟩, none, checkBudget [] [] ⟨2024, 1, 1, 0⟩ "A1" "T1",
      Except.error "boom", .response 200 .absent, "GET", "/x"⟩).upstreamCalled = true ∧
    (serveProxy ⟨"T1", some ⟨"T1", "t", "service", [], [], "none", [], "free", 0⟩,
      some ⟨"A1", ""⟩, none, checkBudget [] [] ⟨2024, 1, 1, 0⟩ "A1" "T1",
      Except.error "boom", .response 200 .absent, "GET", "/x"⟩).errorCode ≠
      some "budget_exceeded" :=
  unbudgeted_agent_admitted _
    ⟨"T1", "t", "service", [], [], "none", [], "free", 0⟩ ⟨"A1", ""⟩
    [] [] ⟨2024, 1, 1, 0⟩ (by decide) rfl rfl
    (by intro r hr; simp at hr) rfl rfl
    (by intro b rem hgr; simp at hgr)
    (by intro hm; exact absurd hm (by decide))

/-! ## Query credential injection (`ServeHTTP`, `case "query"`)

`outReq.URL.Query()` parses the query into `url.Values` (key ↦ values);
`q.Set(param, key)` replaces all values of the parameter with the single
stored key; `q.Encode()` serialises it back.  `url.Values` is modelled as
an association list of key ↦ values. -/

/-- `Values.Get`-style lookup of all values of a key (first entry wins). -/
def valuesGet (q : List (String × List String)) (k : String) :
    Option (List String) :=
  (q.find? (fun p => p.1 == k)).map (fun p => p.2)

/-- `url.Values.Set`: replace every entry of the key with the single value,
or add the key when absent. -/
def valuesSet (q : List (String × List String)) (k : String) (v : String) :
    List (String × List String) :=
  if q.any (fun p => p.1 == k) then
    q.map (fun p => if p.1 == k then (k, [v]) else p)
  else q ++ [(k, [v])]

/-- Go map access with the zero value for a missing key. -/
def lookupConfig (cfg : List (String × String)) (k : String) : String :=
  ((cfg.find? (fun p => p.1 == k)).map (fun p => p.2)).getD ""

/-- The injected parameter name: `auth_config["param_name"]`, defaulting to
`"api_key"` when unset. -/
def queryParamName (authConfig : List (String × String)) : String :=
  let p := lookupConfig authConfig "param_name"
  if p = "" then "api_key" else p

/-- The `case "query"` branch of the credential injection. -/
def injectQueryAuth (authConfig : List (String × String))
    (q : List (String × List String)) : List (String × List String) :=
  valuesSet q (queryParamName authConfig) (lookupConfig authConfig "key")

lemma valuesGet_valuesSet_self (q : List (String × List String)) (k : String)
    (v : String) : valuesGet (valuesSet q k v) k = some [v] := by
  unfold valuesSet
  by_cases hany : q.any (fun p => p.1 == k)
  · rw [if_pos hany]
    induction q with
    | nil => simp at hany
    | cons p rest ih =>
      by_cases hp : p.1 == k
      · simp only [List.map_cons, if_pos hp]
        unfold valuesGet
        simp [List.find?]
      · simp only [List.map_cons, if_neg hp]
        have hrest : rest.any (fun p => p.1 == k) := by
          simp only [List.any_cons, hp, Bool.false_or] at hany
          exact hany
        have := ih hrest
        unfold valuesGet at this ⊢
        simp only [List.find?, hp]
        exact this
  · rw [if_neg hany]
    induction q with
    | nil =>
      unfold valuesGet
      simp [List.find?]
    | cons p rest ih =>
      have hp : (p.1 == k) = false := by
        by_contra hc
        simp only [Bool.not_eq_false] at hc
        exact hany (by simp [List.any_cons, hc])
      have hrest : ¬ rest.any (fun p => p.1 == k) := by
        intro hc
        exact hany (by simp [List.any_cons, hc])
      have := ih hrest
      unfold valuesGet at this ⊢
      simp only [List.cons_append, List.find?, hp]
      exact this

lemma find_map_set_ne (k k' v : String) (hne : k' ≠ k) :
    ∀ q : List (String × List String),
      (q.map (fun p => if p.1 == k then (k, [v]) else p)).find?
        (fun p => p.1 == k') = q.find? (fun p => p.1 == k') := by
  have hkk' : (k == k') = false := by
    simp only [beq_eq_false_iff_ne]
    exact fun h => hne h.symm
  intro q
  induction q with
  | nil => rfl
  | cons p rest ih =>
    rw [List.map_cons]
    by_cases hp : (p.1 == k) = true
    · have hpk : p.1 = k := eq_of_beq hp
      have hp' : (p.1 == k') = false := by rw [hpk]; exact hkk'
      rw [if_pos hp]
      rw [@List.find?_cons_of_neg _ (fun x => x.1 == k') (k, [v]) _ (by simp [hkk'])]
      rw [@List.find?_cons_of_neg _ (fun x => x.1 == k') p _ (by simp [hp'])]
      exact ih
    · rw [if_neg hp]
      by_cases hp' : (p.1 == k') = true
      · rw [@List.find?_cons_of_pos _ (fun x => x.1 == k') p _ hp',
          @List.find?_cons_of_pos _ (fun x => x.1 == k') p _ hp']
      · rw [@List.find?_cons_of_neg _ (fun x => x.1 == k') p _ hp',
          @List.find?_cons_of_neg _ (fun x => x.1 == k') p _ hp']
        exact ih

lemma find_append_set_ne (k k' v : String) (hne : k' ≠ k) :
    ∀ q : List (String × List String),
      (q ++ [(k, [v])]).find? (fun p => p.1 == k') =
        q.find? (fun p => p.1 == k') := by
  have hkk' : (k == k') = false := by
    simp only [beq_eq_false_iff_ne]
    exact fun h => hne h.symm
  intro q
  induction q with
  | nil =>
    rw [List.nil_append,
      @List.find?_cons_of_neg _ (fun x => x.1 == k') (k, [v]) _ (by simp [hkk'])]
  | cons p rest ih =>
    rw [List.cons_append]
    by_cases hp : (p.1 == k') = true
    · rw [@List.find?_cons_of_pos _ (fun x => x.1 == k') p _ hp,
        @List.find?_cons_of_pos _ (fun x => x.1 == k') p _ hp]
    · rw [@List.find?_cons_of_neg _ (fun x => x.1 == k') p _ hp,
        @List.find?_cons_of_neg _ (fun x => x.1 == k') p _ hp]
      exact ih

lemma valuesGet_valuesSet_ne (q : List (String × List String)) (k k' : String)
    (v : String) (hne : k' ≠ k) :
    valuesGet (valuesSet q k v) k' = valuesGet q k' := by
  unfold valuesSet valuesGet
  by_cases hany : q.any (fun p => p.1 == k)
  · rw [if_pos hany, find_map_set_ne k k' v hne q]
  · rw [if_neg hany, find_append_set_ne k k' v hne q]

/-! ### Claim C10: query credential injection has set semantics -/

/-- Claim C10: for auth_type `query`, the injected parameter (param_name
from auth_config, defaulting to `api_key`) carries the tool's stored key as
its sole value — any client-supplied value for that parameter is replaced —
while every other query parameter is preserved. -/
theorem query_auth_set_semantics (authConfig : List (String × String))
    (q : List (String × List String)) :
    valuesGet (injectQueryAuth authConfig q) (queryParamName authConfig) =
      some [lookupConfig authConfig "key"] ∧
    ∀ k, k ≠ queryParamName authConfig →
      valuesGet (injectQueryAuth authConfig q) k = valuesGet q k := by
  constructor
  · exact valuesGet_valuesSet_self q (queryParamName authConfig)
      (lookupConfig authConfig "key")
  · intro k hk
    exact valuesGet_valuesSet_ne q (queryParamName authConfig) k
      (lookupConfig authConfig "key") hk

/-- Witness for C10: the client already sent `api_key=client` plus `x=1`;
after injection `api_key` holds only the stored key `s123` and `x` is
preserved. -/
theorem query_auth_set_semantics_witness :
    valuesGet (injectQueryAuth [("key", "s123")]
      [("api_key", ["client"]), ("x", ["1"])]) "api_key" = some ["s123"] ∧
    valuesGet (injectQueryAuth [("key", "s123")]
      [("api_key", ["client"]), ("x", ["1"])]) "x" = some ["1"] := by
  have h := query_auth_set_semantics [("key", "s123")]
    [("api_key", ["client"]), ("x", ["1"])]
  have hpn : queryParamName [("key", "s123")] = "api_key" := by decide
  have hkey : lookupConfig [("key", "s123")] "key" = "s123" := by decide
  constructor
  · have h1 := h.1
    rw [hpn, hkey] at h1
    exact h1
  · have h2 := h.2 "x" (by rw [hpn]; decide)
    rw [h2]
    decide

end Octroi
